import Mathlib

/-!
# Verification of the `autonomous-claude` session-loop controller

Shallow embedding of the core logic of `src/autonomous_claude/agent.py`
(checklist model, session runner, loop controller) together with the
progress helpers of `ui.py` / `progress.py` and the interruptible wait of
`ui.py`, plus proofs of the specification claims about them.

The checklist file is JSON, read with Python's `json.loads` and inspected
with `dict.get`, truthiness tests and `for` iteration, so we model the
parsed values with a small JSON AST and embed the relevant Python
primitives (`get`, truthiness, iteration, `len`) on it.  Python exceptions
that the source code can actually raise while inspecting parsed values
(`AttributeError` from `.get` on a non-dict, `TypeError` from iterating or
taking `len` of a non-sequence) are modelled with `Except`.
-/

set_option maxHeartbeats 1000000

namespace AutonomousClaude

/-- Parsed JSON value, as produced by `json.loads`.  Numbers are modelled
as integers (the checklist data the code inspects never depends on
fractional values), and objects as association lists with the keys unique,
which is what `json.loads` produces (later duplicate keys overwrite
earlier ones while parsing). -/
inductive Json where
  | null : Json
  | bool (b : Bool) : Json
  | num (n : Int) : Json
  | str (s : String) : Json
  | arr (elems : List Json) : Json
  | obj (fields : List (String × Json)) : Json

mutual

/-- Decidable equality of JSON values (hand-rolled: the nested `List`
occurrences defeat the automatic derivation). -/
def Json.decEq : (a b : Json) → Decidable (a = b)
  | .null, .null => isTrue rfl
  | .bool a, .bool b =>
    if h : a = b then isTrue (by rw [h])
    else isFalse (fun hh => h (Json.bool.inj hh))
  | .num a, .num b =>
    if h : a = b then isTrue (by rw [h])
    else isFalse (fun hh => h (Json.num.inj hh))
  | .str a, .str b =>
    if h : a = b then isTrue (by rw [h])
    else isFalse (fun hh => h (Json.str.inj hh))
  | .arr a, .arr b =>
    match Json.decEqList a b with
    | isTrue h => isTrue (by rw [h])
    | isFalse h => isFalse (fun hh => h (Json.arr.inj hh))
  | .obj a, .obj b =>
    match Json.decEqFields a b with
    | isTrue h => isTrue (by rw [h])
    | isFalse h => isFalse (fun hh => h (Json.obj.inj hh))
  | .null, .bool _ => isFalse nofun
  | .null, .num _ => isFalse nofun
  | .null, .str _ => isFalse nofun
  | .null, .arr _ => isFalse nofun
  | .null, .obj _ => isFalse nofun
  | .bool _, .null => isFalse nofun
  | .bool _, .num _ => isFalse nofun
  | .bool _, .str _ => isFalse nofun
  | .bool _, .arr _ => isFalse nofun
  | .bool _, .obj _ => isFalse nofun
  | .num _, .null => isFalse nofun
  | .num _, .bool _ => isFalse nofun
  | .num _, .str _ => isFalse nofun
  | .num _, .arr _ => isFalse nofun
  | .num _, .obj _ => isFalse nofun
  | .str _, .null => isFalse nofun
  | .str _, .bool _ => isFalse nofun
  | .str _, .num _ => isFalse nofun
  | .str _, .arr _ => isFalse nofun
  | .str _, .obj _ => isFalse nofun
  | .arr _, .null => isFalse nofun
  | .arr _, .bool _ => isFalse nofun
  | .arr _, .num _ => isFalse nofun
  | .arr _, .str _ => isFalse nofun
  | .arr _, .obj _ => isFalse nofun
  | .obj _, .null => isFalse nofun
  | .obj _, .bool _ => isFalse nofun
  | .obj _, .num _ => isFalse nofun
  | .obj _, .str _ => isFalse nofun
  | .obj _, .arr _ => isFalse nofun

def Json.decEqList : (a b : List Json) → Decidable (a = b)
  | [], [] => isTrue rfl
  | a :: as, b :: bs =>
    match Json.decEq a b, Json.decEqList as bs with
    | isTrue h1, isTrue h2 => isTrue (by rw [h1, h2])
    | isFalse h1, _ => isFalse (fun hh => h1 (List.cons.inj hh).1)
    | _, isFalse h2 => isFalse (fun hh => h2 (List.cons.inj hh).2)
  | [], _ :: _ => isFalse nofun
  | _ :: _, [] => isFalse nofun

def Json.decEqFields : (a b : List (String × Json)) → Decidable (a = b)
  | [], [] => isTrue rfl
  | (k1, v1) :: as, (k2, v2) :: bs =>
    if hk : k1 = k2 then
      match Json.decEq v1 v2, Json.decEqFields as bs with
      | isTrue hv, isTrue ht => isTrue (by rw [hk, hv, ht])
      | isFalse hv, _ =>
        isFalse (fun hh => hv (congrArg Prod.snd (List.cons.inj hh).1))
      | _, isFalse ht => isFalse (fun hh => ht (List.cons.inj hh).2)
    else isFalse (fun hh => hk (congrArg Prod.fst (List.cons.inj hh).1))
  | [], _ :: _ => isFalse nofun
  | _ :: _, [] => isFalse nofun

end

instance : DecidableEq Json := Json.decEq

/-- Decidable equality for `Except` results, used to evaluate the
embedded functions on concrete inputs. -/
instance {ε α : Type} [DecidableEq ε] [DecidableEq α] : DecidableEq (Except ε α) := by
  intro a b
  cases a <;> cases b
  case error.error e1 e2 =>
    exact if h : e1 = e2 then isTrue (by rw [h]) else isFalse (fun hh => h (Except.error.inj hh))
  case ok.ok a1 a2 =>
    exact if h : a1 = a2 then isTrue (by rw [h]) else isFalse (fun hh => h (Except.ok.inj hh))
  case error.ok e1 a2 => exact isFalse nofun
  case ok.error a1 e2 => exact isFalse nofun

/-- Python exceptions raised by the embedded fragments. -/
inductive PyErr where
  | attributeError : PyErr
  | typeError : PyErr
deriving DecidableEq

namespace Json

/-- Python truthiness of a parsed JSON value (`None`, `False`, `0`, `""`,
`[]`, `{}` are falsy). -/
def pyTruthy : Json → Bool
  | .null => false
  | .bool b => b
  | .num n => n ≠ 0
  | .str s => s ≠ ""
  | .arr l => !l.isEmpty
  | .obj kvs => !kvs.isEmpty

/-- First binding of key `k` in an association list (Python dicts have
unique keys, so this is the dict lookup). -/
def jfind (kvs : List (String × Json)) (k : String) : Option Json :=
  (kvs.find? (fun p => decide (p.1 = k))).map Prod.snd

/-- Python `f.get(k, d)`: dict lookup with default; `AttributeError` when
`f` is not a dict.  A JSON `null` value stored under the key is returned
as is — Python's `None` — which is also what `.get` with default `None`
returns for a missing key, so `Json.null` uniformly plays Python's
`None`. -/
def pyGetD (f : Json) (k : String) (d : Json) : Except PyErr Json :=
  match f with
  | .obj kvs => .ok ((jfind kvs k).getD d)
  | _ => .error .attributeError

/-- Python `for x in j`: lists yield their elements, strings their
characters, dicts their keys; other values raise `TypeError`. -/
def pyIter : Json → Option (List Json)
  | .arr l => some l
  | .str s => some (s.data.map (fun c => .str (String.mk [c])))
  | .obj kvs => some (kvs.map (fun p => .str p.1))
  | _ => none

/-- Python `len(j)` (`TypeError` on values without a length). -/
def pyLen : Json → Option Nat
  | .arr l => some l.length
  | .str s => some s.length
  | .obj kvs => some kvs.length
  | _ => none

end Json

open Json

/-- State of the `feature_list.json` store as the core observes it:
missing file, present file whose content does not decode as JSON
(`json.JSONDecodeError`), or present file with parsed content `j`. -/
inductive FileContent where
  | absent : FileContent
  | unparsable : FileContent
  | json (j : Json) : FileContent
deriving DecidableEq

/-- `feature_list.exists()`. -/
def fileExists : FileContent → Bool
  | .absent => false
  | _ => true

/-- Embedding of `agent.load_features`: `None` when the file is missing or
does not decode, otherwise the parsed JSON value (the source returns
whatever `json.loads` produced, with no shape check). -/
def load_features : FileContent → Option Json
  | .absent => none
  | .unparsable => none
  | .json j => some j

/-- `all(f.get("passes", False) for f in features)` — short-circuiting at
the first falsy `passes`; `.get` on a non-dict element raises
`AttributeError`, which is not caught by the caller. -/
def allPassesTruthy : List Json → Except PyErr Bool
  | [] => .ok true
  | f :: rest =>
    match pyGetD f "passes" (.bool false) with
    | .error e => .error e
    | .ok v => if pyTruthy v then allPassesTruthy rest else .ok false

/-- Embedding of `agent.is_project_complete`: `False` when the file is
missing; `json.JSONDecodeError` and `TypeError` (non-iterable content) are
caught and give `False`; otherwise `all(f.get("passes", False) ...)`,
whose `AttributeError` (non-dict element) escapes. -/
def is_project_complete (fc : FileContent) : Except PyErr Bool :=
  match fc with
  | .absent => .ok false
  | .unparsable => .ok false
  | .json j =>
    match pyIter j with
    | none => .ok false
    | some l => allPassesTruthy l

/-! ## Checklist diff validation (`agent.validate_feature_changes`)

The source builds Python dicts keyed by `f.get("feature", "")`.  A dict is
modelled as an association list in first-insertion order whose values are
overwritten on reinsertion, exactly the Python semantics. -/

/-- `k in d` for the modelled dict. -/
def dHasKey (d : List (Json × Json)) (k : Json) : Bool :=
  d.any (fun p => decide (p.1 = k))

/-- Dict update `d[k] = v`: overwrite in place if the key is present
(keeping first-insertion order), else append. -/
def dictInsert (d : List (Json × Json)) (k v : Json) : List (Json × Json) :=
  if dHasKey d k then d.map (fun p => if p.1 = k then (p.1, v) else p)
  else d ++ [(k, v)]

/-- Dict lookup `d.get(k)` (keys are unique, so the first match is the
binding). -/
def dictGet (d : List (Json × Json)) (k : Json) : Option Json :=
  (d.find? (fun p => decide (p.1 = k))).map Prod.snd

/-- The dict comprehension `{f.get("feature", ""): f for f in l}`,
accumulated over `l`; `.get` raises `AttributeError` on a non-dict
element. -/
def buildByName : List Json → List (Json × Json) → Except PyErr (List (Json × Json))
  | [], d => .ok d
  | f :: rest, d =>
    match pyGetD f "feature" (.str "") with
    | .error e => .error e
    | .ok k => buildByName rest (dictInsert d k f)

/-- The verdict attached to an invalid change.  The source formats these
as f-strings (a Python set repr for the removed case, whose textual order
is unspecified); the embedding keeps the named features themselves. -/
inductive VError where
  | noErr : VError
  | deletedOrCorrupted : VError
  | removed (ks : List Json) : VError
  | descModified (k : Json) : VError
deriving DecidableEq

/-- The per-feature loop of `validate_feature_changes`: for each `(name,
before_feat)` of the before dict in order, skip when `after_by_name.get`
gives `None` or a falsy record, otherwise compare the two
`.get("description")` values and report the first mismatch. -/
def checkDescs : List (Json × Json) → List (Json × Json) → Except PyErr (Bool × VError)
  | [], _ => .ok (true, .noErr)
  | (k, bf) :: rest, ad =>
    match dictGet ad k with
    | none => checkDescs rest ad
    | some af =>
      if pyTruthy af = false then checkDescs rest ad
      else
        match pyGetD bf "description" .null, pyGetD af "description" .null with
        | .ok bdsc, .ok adsc =>
          if bdsc = adsc then checkDescs rest ad else .ok (false, .descModified k)
        | .error e, _ => .error e
        | .ok _, .error e => .error e

/-- Embedding of `agent.validate_feature_changes`.  `None` inputs are the
`load_features` result for a missing/undecodable file.  Present snapshots
are iterated to build the name-keyed dicts; removed keys are detected by
set difference, then descriptions of common names are compared. -/
def validate_feature_changes (before after : Option Json) :
    Except PyErr (Bool × VError) :=
  match before with
  | none => .ok (true, .noErr)
  | some b =>
    match after with
    | none => .ok (false, .deletedOrCorrupted)
    | some a =>
      match pyIter b with
      | none => .error .typeError
      | some bl =>
        match buildByName bl [] with
        | .error e => .error e
        | .ok bd =>
          match pyIter a with
          | none => .error .typeError
          | some al =>
            match buildByName al [] with
            | .error e => .error e
            | .ok ad =>
              let removed := (bd.map Prod.fst).filter (fun k => !dHasKey ad k)
              if removed.isEmpty then checkDescs bd ad
              else .ok (false, .removed removed)

/-- Embedding of `agent.save_features`: the store afterwards holds the
serialization of `features`, which parses back to the same value. -/
def save_features (features : Json) : FileContent := .json features

/-! ## Session runner (`agent.write_session_log`, `agent.run_session`)

Durations are measured in tenths of a second, making the `%.1f` format of
the source exact.  Wall-clock timestamps are opaque strings supplied by
the environment. -/

/-- `f"{durationTenths / 10:.1f}"`. -/
def fmtDuration (durationTenths : Nat) : String :=
  toString (durationTenths / 10) ++ "." ++ toString (durationTenths % 10)

/-- `"=" * 70`, the section separator of the log format. -/
def sepBar : String := String.mk (List.replicate 70 '=')

/-- Embedding of `agent.write_session_log`: the content of the single log
file written for a session, as the concatenation of the source's `f.write`
calls in order (header, prompt section, stdout section, and — only when
`stderr` is non-empty — stderr section; an empty stdout is written as
`"(empty)"`). -/
def write_session_log (session_type now : String) (durationTenths : Nat)
    (prompt stdout stderr : String) : String :=
  "Session Type: " ++ (session_type ++ ("\n" ++ ("Timestamp: " ++ (now ++ ("\n" ++ ("Duration: " ++ (fmtDuration durationTenths ++ ("s\n" ++ ("\n" ++ (sepBar ++ ("\n" ++ ("PROMPT:\n" ++ (sepBar ++ ("\n\n" ++ (prompt ++ ("\n\n" ++ (sepBar ++ ("\n" ++ ("STDOUT:\n" ++ (sepBar ++ ("\n\n" ++ ((if stdout = "" then "(empty)" else stdout) ++ ((if stderr = "" then "" else "\n\n" ++ (sepBar ++ ("\n" ++ ("STDERR:\n" ++ (sepBar ++ ("\n\n" ++ (stderr))))))))))))))))))))))))))))))

/-- Outcome of one invocation of the external agent (the
`client.query` / `query_streaming` call inside `run_session`): a normal
return with captured output, `subprocess.TimeoutExpired`, or any other
exception. -/
inductive AgentOutcome where
  | returns (stdout stderr : String) (durationTenths : Nat) : AgentOutcome
  | timesOut (durationTenths : Nat) : AgentOutcome
  | fails (msg : String) (durationTenths : Nat) : AgentOutcome
deriving DecidableEq

/-- Elapsed duration of the invocation. -/
def AgentOutcome.durationTenths : AgentOutcome → Nat
  | .returns _ _ d => d
  | .timesOut d => d
  | .fails _ d => d

/-- Presentation-layer calls made by the embedded code.  The presentation
layer is an external collaborator; its invocations are recorded as opaque
events carrying the structured data the core hands over. -/
inductive Event where
  | ranSession (sessionType : String) (logs : List String) : Event
  | printOutput (stdout stderr : String) : Event
  | printTimeoutMsg (timeoutSecs durationTenths : Nat) : Event
  | printErrorMsg (msg : String) : Event
  | warnInvalidChange (e : VError) : Event
  | warnRestoring : Event
  | sessionProgress (fileShown : FileContent) (newlyCompleted : List Json)
      (durationTenths prevPassing totalTenths : Nat) : Event
  | maxSessionsMsg (n : Nat) : Event
  | userStoppedMsg : Event
  | completeMsg : Event
deriving DecidableEq

/-- Result of `agent.run_session`: the returned `(status, response,
duration)` triple, the log artifacts written during the call, and the
presentation calls made. -/
structure SessRes where
  status : String
  response : String
  durationTenths : Nat
  logs : List String
  events : List Event
deriving DecidableEq

/-- The stderr text that reaches the log for each outcome: the captured
stderr on a normal return, `f"TIMEOUT after {timeout}s"` on
`subprocess.TimeoutExpired`, `str(e)` on any other exception. -/
def logStderrOf (timeoutSecs : Nat) : AgentOutcome → String
  | .returns _ err _ => err
  | .timesOut _ => "TIMEOUT after " ++ toString timeoutSecs ++ "s"
  | .fails msg _ => msg

/-- The stdout text that reaches the log (empty on the exception paths). -/
def logStdoutOf : AgentOutcome → String
  | .returns out _ _ => out
  | .timesOut _ => ""
  | .fails _ _ => ""

/-- Embedding of `agent.run_session`.  On a normal return it logs and
returns `("continue", stdout, duration)`; on `subprocess.TimeoutExpired`
it logs with the `TIMEOUT after {timeout}s` marker and returns
`("error", "timeout", duration)`; on any other exception it logs `str(e)`
and returns `("error", str(e), duration)`.  Exactly one log artifact is
written on every path, before returning. -/
def run_session (session_type prompt : String) (timeoutSecs : Nat)
    (now : String) (ag : AgentOutcome) : SessRes :=
  match ag with
  | .returns out err d =>
    { status := "continue", response := out, durationTenths := d
      logs := [write_session_log session_type now d prompt out err]
      events := [.printOutput out err] }
  | .timesOut d =>
    { status := "error", response := "timeout", durationTenths := d
      logs := [write_session_log session_type now d prompt ""
                ("TIMEOUT after " ++ toString timeoutSecs ++ "s")]
      events := [.printTimeoutMsg timeoutSecs d] }
  | .fails msg d =>
    { status := "error", response := msg, durationTenths := d
      logs := [write_session_log session_type now d prompt "" msg]
      events := [.printErrorMsg msg] }

/-! ## Interruptible wait (`ui.wait_for_stop_signal`)

The source polls `select.select([sys.stdin], [], [], min(1.0, remaining))`
once per second of the timeout window.  Time is discretized into those
one-second poll windows: `keyAt = some i` means a keypress arrives during
the `i`-th window (0-based), `none` means no key arrives. -/

/-- The interactive environment of one wait: whether stdin is a terminal,
and in which poll window (if any) a keypress arrives. -/
structure WaitEnv where
  isatty : Bool
  keyAt : Option Nat
deriving DecidableEq

/-- The polling loop: `remaining` windows are left and `i` is the index of
the current window; a ready `select` consumes exactly one input event
(`sys.stdin.read(1)`) and returns `True`. -/
def waitPoll (keyAt : Option Nat) : Nat → Nat → Bool × Nat
  | 0, _ => (false, 0)
  | remaining + 1, i =>
    if keyAt = some i then (true, 1) else waitPoll keyAt remaining (i + 1)

/-- Embedding of `ui.wait_for_stop_signal`: returns
`(stopRequested, inputEventsConsumed)`.  A non-tty stdin returns `False`
immediately without polling; otherwise up to `timeoutSecs` windows are
polled and any keypress stops the wait at once. -/
def wait_for_stop_signal (timeoutSecs : Nat) (env : WaitEnv) : Bool × Nat :=
  if env.isatty = false then (false, 0)
  else waitPoll env.keyAt timeoutSecs 0

/-! ## Progress reporting (`ui.get_progress_stats`, `ui.print_progress_bar`,
`progress.count_passing_tests`, `progress.print_progress_summary`)

The printed lines are modelled structurally; the percentage a numeric line
displays is carried in tenths of a percent (`passing / total * 100` with
`%.1f`), computed only on the branch where the source computes it. -/

/-- `sum(1 for f in l if f.get("passes"))` over already-iterated elements
(`.get` without default: missing key gives `None`, i.e. `Json.null`). -/
def countTruthyPasses : List Json → Except PyErr Nat
  | [] => .ok 0
  | f :: rest =>
    match pyGetD f "passes" .null with
    | .error e => .error e
    | .ok v =>
      match countTruthyPasses rest with
      | .error e => .error e
      | .ok n => .ok ((if pyTruthy v then 1 else 0) + n)

/-- Embedding of `ui.get_progress_stats` / `progress.count_passing_tests`
(identical bodies in the two modules): `(0, 0)` for a missing file and for
content that raises `json.JSONDecodeError`; for parsed content, `total =
len(features)` (a `TypeError` from `len` is NOT caught — only
`JSONDecodeError` and `IOError` are) and `passing` counts truthy
`passes`. -/
def get_progress_stats (fc : FileContent) : Except PyErr (Nat × Nat) :=
  match fc with
  | .absent => .ok (0, 0)
  | .unparsable => .ok (0, 0)
  | .json j =>
    match pyLen j with
    | none => .error .typeError
    | some total =>
      match pyIter j with
      | none => .error .typeError
      | some l =>
        match countTruthyPasses l with
        | .error e => .error e
        | .ok passing => .ok (passing, total)

/-- `progress.count_passing_tests` — same computation as
`ui.get_progress_stats`, kept as its own definition to mirror the two
source modules. -/
def count_passing_tests (fc : FileContent) : Except PyErr (Nat × Nat) :=
  get_progress_stats fc

/-- One line printed by the progress reporters. -/
inductive ProgLine where
  | numericBar (prevPassing : Option Nat) (passing total pctTenths : Nat) : ProgLine
  | numericSummary (passing total pctTenths : Nat) : ProgLine
  | noChecklistMsg : ProgLine
deriving DecidableEq

/-- Embedding of `ui.print_progress_bar`: prints the bar line (with the
percentage `passing / total * 100`) only when `total > 0`; prints nothing
at all otherwise. -/
def print_progress_bar (fc : FileContent) (prevPassing : Option Nat) :
    Except PyErr (List ProgLine) :=
  match get_progress_stats fc with
  | .error e => .error e
  | .ok (passing, total) =>
    if 0 < total then
      .ok [.numericBar prevPassing passing total (passing * 1000 / total)]
    else .ok []

/-- Embedding of `progress.print_progress_summary`: the numeric line when
`total > 0`, the `"feature_list.json not yet created"` line otherwise. -/
def print_progress_summary (fc : FileContent) : Except PyErr (List ProgLine) :=
  match count_passing_tests fc with
  | .error e => .error e
  | .ok (passing, total) =>
    if 0 < total then
      .ok [.numericSummary passing total (passing * 1000 / total)]
    else .ok [.noChecklistMsg]

/-! ## Loop controller (`agent.run_agent_loop`)

One iteration of the `while True:` body, then a fuel-indexed iteration of
the whole loop.  The external agent's effect on `feature_list.json` during
a session, the wall clock, and the operator's keypresses are the
per-iteration environment. -/

/-- Configuration of `run_agent_loop` relevant to the loop body. -/
structure Config where
  maxSessions : Option Nat
  isAdoption : Bool
  timeoutSecs : Nat

/-- The loop-carried state. -/
structure LoopState where
  file : FileContent
  sessionCount : Nat
  totalTenths : Nat
  needsEnhancementInit : Bool
deriving DecidableEq

/-- Environment of a single iteration: what the agent invocation does,
what `feature_list.json` holds when the session ends, the timestamp, and
the operator's behavior during the wait. -/
structure IterEnv where
  outcome : AgentOutcome
  fileAfter : FileContent
  now : String
  wait : WaitEnv

/-- Terminal reasons of the loop. -/
inductive Outcome where
  | complete : Outcome
  | maxSessionsReached : Outcome
  | userStopped : Outcome
deriving DecidableEq

/-- Result of one iteration: loop exit, continuation, or an uncaught
Python exception. -/
inductive Step where
  | finished (o : Outcome) (evs : List Event) (final : LoopState) : Step
  | next (st : LoopState) (evs : List Event) : Step
  | crashed (e : PyErr) (evs : List Event) : Step

/-- The base of `(features or [])`-style iteration in the loop: `None` and
falsy values are replaced by the empty list before iterating. -/
def orEmptyList : Option Json → Json
  | none => .arr []
  | some j => if pyTruthy j then j else .arr []

/-- `prev_passing = sum(1 for f in (features_before or []) if
f.get("passes"))`. -/
def countPassing (features : Option Json) : Except PyErr Nat :=
  match pyIter (orEmptyList features) with
  | none => .error .typeError
  | some l => countTruthyPasses l

/-- `before_passing = {f.get("feature") for f in (features_before or [])
if f.get("passes")}` — the set is modelled as the list of names in
iteration order (only membership is used). -/
def passingNames (features : Option Json) : Except PyErr (List Json) :=
  match pyIter (orEmptyList features) with
  | none => .error .typeError
  | some l => go l
where
  go : List Json → Except PyErr (List Json)
    | [] => .ok []
    | f :: rest =>
      match pyGetD f "passes" .null with
      | .error e => .error e
      | .ok v =>
        if pyTruthy v then
          match pyGetD f "feature" .null with
          | .error e => .error e
          | .ok n =>
            match go rest with
            | .error e => .error e
            | .ok ns => .ok (n :: ns)
        else go rest

/-- `newly_completed = [f for f in (features_after or []) if
f.get("passes") and f.get("feature") not in before_passing]`. -/
def newlyCompleted (features : Option Json) (beforeNames : List Json) :
    Except PyErr (List Json) :=
  match pyIter (orEmptyList features) with
  | none => .error .typeError
  | some l => go l
where
  go : List Json → Except PyErr (List Json)
    | [] => .ok []
    | f :: rest =>
      match pyGetD f "passes" .null with
      | .error e => .error e
      | .ok v =>
        if pyTruthy v then
          match pyGetD f "feature" .null with
          | .error e => .error e
          | .ok n =>
            match go rest with
            | .error e => .error e
            | .ok fs => .ok (if n ∈ beforeNames then fs else f :: fs)
        else
          match go rest with
          | .error e => .error e
          | .ok fs => .ok fs

/-- Prompt selected for a session kind; the prompt texts live in bundled
template files outside the core and are opaque to it. -/
def promptFor (sessionType : String) : String := "<prompt:" ++ sessionType ++ ">"

/-- `if max_sessions and session_count > max_sessions:` — Python
truthiness makes `None` and `0` both skip the ceiling check. -/
def hitsMaxSessions (maxSessions : Option Nat) (sc : Nat) : Bool :=
  match maxSessions with
  | none => false
  | some m => decide (m ≠ 0) && decide (m < sc)

/-- One iteration of the `while True:` body of `agent.run_agent_loop`
(lines 230–286): completion check, session-count ceiling, session-kind
selection, before-snapshot, session, after-snapshot, validation with
restore, newly-completed computation, progress report, interruptible
wait. -/
def loopIter (cfg : Config) (st : LoopState) (env : IterEnv) : Step :=
  match is_project_complete st.file with
  | .error e => .crashed e []
  | .ok true => .finished .complete [.completeMsg] st
  | .ok false =>
    let sc := st.sessionCount + 1
    if hitsMaxSessions cfg.maxSessions sc then
      .finished .maxSessionsReached [.maxSessionsMsg (cfg.maxSessions.getD 0)]
        { st with sessionCount := sc }
    else
      let needsInit := !fileExists st.file
      let sessionType :=
        if st.needsEnhancementInit then "enhancement_init"
        else if needsInit then
          (if cfg.isAdoption then "adoption_init" else "initializer")
        else "coding"
      let needsEnh2 := if st.needsEnhancementInit then false else st.needsEnhancementInit
      let featuresBefore := load_features st.file
      match countPassing featuresBefore with
      | .error e => .crashed e []
      | .ok prevPassing =>
        let sr := run_session sessionType (promptFor sessionType) cfg.timeoutSecs
                    env.now env.outcome
        let evs0 := Event.ranSession sessionType sr.logs :: sr.events
        let file1 := env.fileAfter
        let trt := st.totalTenths + sr.durationTenths
        let featuresAfter := load_features file1
        match validate_feature_changes featuresBefore featuresAfter with
        | .error e => .crashed e evs0
        | .ok (isValid, verr) =>
          let (file2, featuresAfter2, warnEvs) :=
            if isValid then (file1, featuresAfter, ([] : List Event))
            else
              match featuresBefore with
              | some fb => (save_features fb, some fb,
                  [Event.warnInvalidChange verr, Event.warnRestoring])
              | none => (file1, featuresAfter, [Event.warnInvalidChange verr])
          match passingNames featuresBefore with
          | .error e => .crashed e (evs0 ++ warnEvs)
          | .ok beforeNames =>
            match newlyCompleted featuresAfter2 beforeNames with
            | .error e => .crashed e (evs0 ++ warnEvs)
            | .ok newly =>
              let evs := evs0 ++ warnEvs ++
                [Event.sessionProgress file2 newly sr.durationTenths prevPassing trt]
              let st2 : LoopState :=
                { file := file2, sessionCount := sc, totalTenths := trt
                  needsEnhancementInit := needsEnh2 }
              if (wait_for_stop_signal 10 env.wait).1 then
                .finished .userStopped (evs ++ [Event.userStoppedMsg]) st2
              else
                .next st2 evs

/-- Result of iterating the loop with bounded fuel. -/
inductive RunRes where
  | finished (o : Outcome) (trace : List Event) (final : LoopState) : RunRes
  | fuelOut (st : LoopState) (trace : List Event) : RunRes
  | crashed (e : PyErr) (trace : List Event) : RunRes

/-- The trace of a run. -/
def RunRes.trace : RunRes → List Event
  | .finished _ tr _ => tr
  | .fuelOut _ tr => tr
  | .crashed _ tr => tr

/-- Iterate `loopIter` for at most `fuel` iterations, accumulating the
trace of presentation events; the per-iteration environment is indexed by
the session counter at the start of the iteration. -/
def runLoop : Nat → Config → LoopState → (Nat → IterEnv) → RunRes
  | 0, _, st, _ => .fuelOut st []
  | fuel + 1, cfg, st, envs =>
    match loopIter cfg st (envs st.sessionCount) with
    | .crashed e evs => .crashed e evs
    | .finished o evs fin => .finished o evs fin
    | .next st2 evs =>
      match runLoop fuel cfg st2 envs with
      | .finished o tr fin => .finished o (evs ++ tr) fin
      | .fuelOut s tr => .fuelOut s (evs ++ tr)
      | .crashed e tr => .crashed e (evs ++ tr)

/-- Whether an event records an executed session. -/
def Event.isSession : Event → Bool
  | .ranSession _ _ => true
  | _ => false

/-- Whether an event records an executed session of the given kind. -/
def Event.isSessionOf (t : String) : Event → Bool
  | .ranSession t' _ => decide (t' = t)
  | _ => false

/-- Number of sessions recorded in a trace. -/
def sessionsIn (tr : List Event) : Nat := tr.countP (fun e => e.isSession)

/-- Number of sessions of a given kind recorded in a trace. -/
def sessionsOfIn (t : String) (tr : List Event) : Nat :=
  tr.countP (fun e => e.isSessionOf t)

/-! ## Well-formed checklists

A feature record as §3 of the design describes it: a JSON object with a
string `feature` name and a string `description`; a well-formed checklist
is a sequence of such records with pairwise-distinct names. -/

/-- The string stored under key `k` of a record, when the record is an
object and the value is a string. -/
def getStrField (r : Json) (k : String) : Option String :=
  match r with
  | .obj kvs =>
    match jfind kvs k with
    | some (.str s) => some s
    | _ => none
  | _ => none

/-- A record with a string name and a string description. -/
def wfRecord (r : Json) : Bool :=
  (getStrField r "feature").isSome && (getStrField r "description").isSome

/-- The name of a (well-formed) record; `""` is the `.get` default the
source uses for a missing name. -/
def recName (r : Json) : String := (getStrField r "feature").getD ""

/-- The description of a record, when present as a string. -/
def recDesc (r : Json) : Option String := getStrField r "description"

/-- The names occurring in a checklist. -/
def namesOf (l : List Json) : List String :=
  l.filterMap (fun r => getStrField r "feature")

/-- The description attached to name `n` in checklist `l` (first record
with that name; unique when the checklist is well-formed). -/
def descOf (l : List Json) (n : String) : Option String :=
  match l.find? (fun r => decide (getStrField r "feature" = some n)) with
  | some r => recDesc r
  | none => none

/-- Well-formed checklist: every record well-formed, names pairwise
distinct. -/
def wfChecklist (l : List Json) : Prop :=
  (∀ r ∈ l, wfRecord r = true) ∧ (namesOf l).Nodup

instance (l : List Json) : Decidable (wfChecklist l) := by
  unfold wfChecklist; infer_instance

/-! ### Record-level facts -/

theorem getStrField_eq_some {r : Json} {k s : String}
    (h : getStrField r k = some s) :
    ∃ kvs, r = .obj kvs ∧ jfind kvs k = some (.str s) := by
  cases r with
  | obj kvs =>
    refine ⟨kvs, rfl, ?_⟩
    simp only [getStrField] at h
    cases hf : jfind kvs k with
    | none => rw [hf] at h; exact absurd h (by simp)
    | some v =>
      rw [hf] at h
      cases v <;> simp_all
  | null => simp [getStrField] at h
  | bool b => simp [getStrField] at h
  | num n => simp [getStrField] at h
  | str s' => simp [getStrField] at h
  | arr l => simp [getStrField] at h

theorem wfRecord_name {r : Json} (h : wfRecord r = true) :
    getStrField r "feature" = some (recName r) := by
  simp only [wfRecord, Bool.and_eq_true, Option.isSome_iff_exists] at h
  obtain ⟨⟨n, hn⟩, _⟩ := h
  simp [recName, hn]

theorem wfRecord_desc {r : Json} (h : wfRecord r = true) :
    ∃ d, recDesc r = some d := by
  simp only [wfRecord, Bool.and_eq_true, Option.isSome_iff_exists] at h
  exact h.2

theorem wfRecord_getFeature {r : Json} (h : wfRecord r = true) :
    pyGetD r "feature" (.str "") = .ok (.str (recName r)) := by
  obtain ⟨kvs, hr, hf⟩ := getStrField_eq_some (wfRecord_name h)
  subst hr
  simp [pyGetD, hf]

theorem wfRecord_getDesc {r : Json} (h : wfRecord r = true) :
    ∃ d, recDesc r = some d ∧ pyGetD r "description" .null = .ok (.str d) := by
  obtain ⟨d, hd⟩ := wfRecord_desc h
  obtain ⟨kvs, hr, hf⟩ := getStrField_eq_some hd
  subst hr
  exact ⟨d, hd, by simp [pyGetD, hf]⟩

theorem wfRecord_truthy {r : Json} (h : wfRecord r = true) :
    pyTruthy r = true := by
  obtain ⟨kvs, hr, hf⟩ := getStrField_eq_some (wfRecord_name h)
  subst hr
  cases kvs with
  | nil => simp [jfind] at hf
  | cons p t => simp [pyTruthy]

theorem namesOf_eq_map {l : List Json} (h : ∀ r ∈ l, wfRecord r = true) :
    namesOf l = l.map recName := by
  induction l with
  | nil => rfl
  | cons r rest ih =>
    have hr := wfRecord_name (h r (by simp))
    simp only [namesOf, List.filterMap_cons, hr, List.map_cons]
    rw [← namesOf]
    rw [ih (fun x hx => h x (by simp [hx]))]

/-! ### Dict-building facts

For a well-formed checklist, the dict comprehension keyed by name produces
the association list of `(str name, record)` pairs in checklist order. -/

/-- The keyed association list a well-formed checklist builds. -/
def keyed (l : List Json) : List (Json × Json) :=
  l.map (fun r => (Json.str (recName r), r))

theorem dHasKey_append (d : List (Json × Json)) (p : Json × Json) (k : Json) :
    dHasKey (d ++ [p]) k = (dHasKey d k || decide (p.1 = k)) := by
  simp [dHasKey]

theorem dHasKey_keyed_str {l : List Json} {n : String} :
    dHasKey (keyed l) (.str n) = true ↔ n ∈ l.map recName := by
  induction l with
  | nil => simp [dHasKey, keyed]
  | cons r rest ih =>
    have h1 : keyed (r :: rest) = (Json.str (recName r), r) :: keyed rest := rfl
    have h2 : dHasKey ((Json.str (recName r), r) :: keyed rest) (.str n)
        = (decide (Json.str (recName r) = Json.str n) || dHasKey (keyed rest) (.str n)) := by
      simp [dHasKey]
    rw [h1, h2]
    simp only [Bool.or_eq_true, decide_eq_true_eq, List.map_cons, List.mem_cons]
    constructor
    · rintro (h | h)
      · exact Or.inl (Json.str.inj h).symm
      · exact Or.inr (ih.mp h)
    · rintro (h | h)
      · exact Or.inl (by rw [h])
      · exact Or.inr (ih.mpr h)

theorem buildByName_wf : ∀ (l : List Json) (d : List (Json × Json)),
    (∀ r ∈ l, wfRecord r = true) → (l.map recName).Nodup →
    (∀ r ∈ l, dHasKey d (.str (recName r)) = false) →
    buildByName l d = .ok (d ++ keyed l) := by
  intro l
  induction l with
  | nil => intro d _ _ _; simp [buildByName, keyed]
  | cons f rest ih =>
    intro d hwf hnd hnew
    have hget := wfRecord_getFeature (hwf f (by simp))
    have hkey : dHasKey d (.str (recName f)) = false := hnew f (by simp)
    simp only [buildByName, hget]
    rw [dictInsert, hkey]
    simp only [Bool.false_eq_true, if_false]
    have hnd' : (rest.map recName).Nodup := by
      simp only [List.map_cons, List.nodup_cons] at hnd
      exact hnd.2
    have hnotin : recName f ∉ rest.map recName := by
      simp only [List.map_cons, List.nodup_cons] at hnd
      exact hnd.1
    have hnew' : ∀ r ∈ rest, dHasKey (d ++ [(Json.str (recName f), f)]) (.str (recName r)) = false := by
      intro r hr
      rw [dHasKey_append, hnew r (by simp [hr])]
      simp only [Bool.false_or]
      rw [decide_eq_false_iff_not]
      intro hcontra
      apply hnotin
      rw [Json.str.inj hcontra]
      exact List.mem_map_of_mem recName hr
    rw [ih (d ++ [(Json.str (recName f), f)]) (fun r hr => hwf r (by simp [hr])) hnd' hnew']
    simp [keyed]

theorem dictGet_cons (p : Json × Json) (d : List (Json × Json)) (k : Json) :
    dictGet (p :: d) k = if p.1 = k then some p.2 else dictGet d k := by
  by_cases h : p.1 = k
  · simp [dictGet, List.find?_cons_of_pos, h]
  · simp [dictGet, List.find?_cons_of_neg, h]

/-- Records found by name in a checklist. -/
def findByName (l : List Json) (n : String) : Option Json :=
  l.find? (fun r => decide (recName r = n))

theorem dictGet_keyed {l : List Json} {n : String} :
    dictGet (keyed l) (.str n) = findByName l n := by
  induction l with
  | nil => rfl
  | cons r rest ih =>
    rw [show keyed (r :: rest) = (Json.str (recName r), r) :: keyed rest from rfl,
      dictGet_cons]
    by_cases h : recName r = n
    · rw [if_pos (by rw [h]), findByName, List.find?_cons_of_pos _ (by simpa using h)]
    · rw [if_neg (fun hc => h (Json.str.inj hc)), findByName,
        List.find?_cons_of_neg _ (by simpa using h), ← findByName, ih]

theorem find?_congr_mem {α : Type} {p q : α → Bool} :
    ∀ {l : List α}, (∀ x ∈ l, p x = q x) → l.find? p = l.find? q := by
  intro l
  induction l with
  | nil => intro _; rfl
  | cons a t ih =>
    intro h
    by_cases hq : q a = true
    · rw [List.find?_cons_of_pos _ hq, List.find?_cons_of_pos _ (by rw [h a (by simp)]; exact hq)]
    · rw [List.find?_cons_of_neg _ (by rw [h a (by simp)]; simpa using hq),
        List.find?_cons_of_neg _ (by simpa using hq),
        ih (fun x hx => h x (by simp [hx]))]

theorem descOf_eq_findByName {l : List Json} (hwf : ∀ r ∈ l, wfRecord r = true)
    (n : String) :
    descOf l n = match findByName l n with
      | some r => recDesc r
      | none => none := by
  have h : l.find? (fun r => decide (getStrField r "feature" = some n)) = findByName l n := by
    apply find?_congr_mem
    intro x hx
    rw [wfRecord_name (hwf x hx)]
    exact decide_eq_decide.mpr ⟨fun hh => Option.some.inj hh, fun hh => by rw [hh]⟩
  rw [descOf, h]

theorem findByName_of_mem {l : List Json} (hnd : (l.map recName).Nodup)
    {r : Json} (hr : r ∈ l) : findByName l (recName r) = some r := by
  induction l with
  | nil => cases hr
  | cons a t ih =>
    by_cases h : recName a = recName r
    · rw [findByName, List.find?_cons_of_pos _ (by simpa using h)]
      rcases List.mem_cons.mp hr with h1 | h1
      · rw [h1]
      · exfalso
        simp only [List.map_cons, List.nodup_cons] at hnd
        exact hnd.1 (h ▸ List.mem_map_of_mem recName h1)
    · rw [findByName, List.find?_cons_of_neg _ (by simpa using h), ← findByName]
      rcases List.mem_cons.mp hr with h1 | h1
      · exact absurd (by rw [h1]) h
      · simp only [List.map_cons, List.nodup_cons] at hnd
        exact ih hnd.2 h1

theorem descOf_of_mem {l : List Json} (hwf : ∀ r ∈ l, wfRecord r = true)
    (hnd : (l.map recName).Nodup) {r : Json} (hr : r ∈ l) :
    descOf l (recName r) = recDesc r := by
  rw [descOf_eq_findByName hwf, findByName_of_mem hnd hr]

theorem findByName_eq_none {l : List Json} {n : String} :
    findByName l n = none ↔ n ∉ l.map recName := by
  rw [findByName, List.find?_eq_none]
  constructor
  · intro h hn
    obtain ⟨r, hr, hrn⟩ := List.mem_map.mp hn
    exact h r hr (by simpa using hrn)
  · intro h r hr hp
    exact h (of_decide_eq_true hp ▸ List.mem_map_of_mem recName hr)

theorem findByName_eq_some {l : List Json} {n : String} {r : Json}
    (h : findByName l n = some r) : r ∈ l ∧ recName r = n := by
  rw [findByName] at h
  have h1 := List.mem_of_find?_eq_some h
  have h2 := List.find?_some h
  exact ⟨h1, of_decide_eq_true h2⟩

/-- The description loop of `validate_feature_changes` on the dicts built
from two well-formed checklists: valid exactly when every before-record
whose name survives keeps its description, and an invalid verdict names
such a record. -/
theorem checkDescs_keyed {al : List Json} (hwfa : ∀ r ∈ al, wfRecord r = true)
    (hnda : (al.map recName).Nodup) :
    ∀ bl : List Json, (∀ r ∈ bl, wfRecord r = true) →
    ∃ v e, checkDescs (keyed bl) (keyed al) = .ok (v, e) ∧
      (v = true ↔ ∀ r ∈ bl, recName r ∈ al.map recName →
        recDesc r = descOf al (recName r)) ∧
      (v = false → ∃ r ∈ bl, e = .descModified (.str (recName r)) ∧
        recName r ∈ al.map recName ∧ recDesc r ≠ descOf al (recName r)) := by
  intro bl
  induction bl with
  | nil =>
    intro _
    refine ⟨true, .noErr, rfl, ?_, by simp⟩
    simp
  | cons r rest ih =>
    intro hwfb
    have hwfr := hwfb r (by simp)
    have hkeyed : keyed (r :: rest) = (Json.str (recName r), r) :: keyed rest := rfl
    cases hdg : dictGet (keyed al) (.str (recName r)) with
    | none =>
      have hnotin : recName r ∉ al.map recName :=
        findByName_eq_none.mp (dictGet_keyed ▸ hdg)
      obtain ⟨v, e, heq, hiff, hfalse⟩ := ih (fun x hx => hwfb x (by simp [hx]))
      refine ⟨v, e, ?_, ?_, ?_⟩
      · rw [hkeyed]
        show checkDescs ((Json.str (recName r), r) :: keyed rest) (keyed al) = _
        simp only [checkDescs, hdg]
        exact heq
      · rw [hiff]
        constructor
        · intro h x hx hmem
          rcases List.mem_cons.mp hx with h1 | h1
          · exact absurd (h1 ▸ hmem) hnotin
          · exact h x h1 hmem
        · intro h x hx hmem
          exact h x (by simp [hx]) hmem
      · intro hv
        obtain ⟨x, hx, he⟩ := hfalse hv
        exact ⟨x, by simp [hx], he⟩
    | some af =>
      have haf := findByName_eq_some (dictGet_keyed ▸ hdg)
      have hwfaf := hwfa af haf.1
      have htr : pyTruthy af = true := wfRecord_truthy hwfaf
      obtain ⟨db, hdb, hgb⟩ := wfRecord_getDesc hwfr
      obtain ⟨da, hda, hga⟩ := wfRecord_getDesc hwfaf
      have hdesc : descOf al (recName r) = some da := by
        have := descOf_of_mem hwfa hnda haf.1
        rw [haf.2] at this
        rw [this, hda]
      have hmem : recName r ∈ al.map recName := haf.2 ▸ List.mem_map_of_mem recName haf.1
      by_cases hd : db = da
      · obtain ⟨v, e, heq, hiff, hfalse⟩ := ih (fun x hx => hwfb x (by simp [hx]))
        refine ⟨v, e, ?_, ?_, ?_⟩
        · rw [hkeyed]
          show checkDescs ((Json.str (recName r), r) :: keyed rest) (keyed al) = _
          simp only [checkDescs, hdg, htr, hgb, hga]
          rw [if_neg (by simp), if_pos (by rw [hd])]
          exact heq
        · rw [hiff]
          constructor
          · intro h x hx hxm
            rcases List.mem_cons.mp hx with h1 | h1
            · rw [h1, hdesc, hdb, hd]
            · exact h x h1 hxm
          · intro h x hx hxm
            exact h x (by simp [hx]) hxm
        · intro hv
          obtain ⟨x, hx, he⟩ := hfalse hv
          exact ⟨x, by simp [hx], he⟩
      · refine ⟨false, .descModified (.str (recName r)), ?_, ?_, ?_⟩
        · rw [hkeyed]
          show checkDescs ((Json.str (recName r), r) :: keyed rest) (keyed al) = _
          simp only [checkDescs, hdg, htr, hgb, hga]
          rw [if_neg (by simp), if_neg (fun hc => hd (Json.str.inj hc))]
        · simp only [Bool.false_eq_true, false_iff]
          intro h
          have := h r (by simp) hmem
          rw [hdb, hdesc] at this
          exact hd (Option.some.inj this)
        · intro _
          refine ⟨r, by simp, rfl, hmem, ?_⟩
          rw [hdb, hdesc]
          simp [hd]

/-- The keys of the before dict. -/
theorem keyed_map_fst (l : List Json) :
    (keyed l).map Prod.fst = l.map (fun r => Json.str (recName r)) := by
  simp [keyed, List.map_map]

/-- The removed-key set computed by `validate_feature_changes`, for
well-formed snapshots: it holds exactly the names of `before` missing from
`after`, and is empty exactly when no name was removed. -/
theorem removed_spec (before after : List Json) :
    (∀ n : String,
      Json.str n ∈ ((keyed before).map Prod.fst).filter
          (fun k => !dHasKey (keyed after) k) ↔
        n ∈ before.map recName ∧ n ∉ after.map recName) ∧
    ((((keyed before).map Prod.fst).filter
        (fun k => !dHasKey (keyed after) k)).isEmpty = true ↔
      ∀ n ∈ before.map recName, n ∈ after.map recName) := by
  rw [keyed_map_fst]
  constructor
  · intro n
    rw [List.mem_filter]
    constructor
    · rintro ⟨hmem, hflt⟩
      obtain ⟨r, hr, hrn⟩ := List.mem_map.mp hmem
      have hn : recName r = n := Json.str.inj hrn
      refine ⟨hn ▸ List.mem_map_of_mem recName hr, ?_⟩
      intro hcontra
      rw [Bool.not_eq_true'] at hflt
      have hb : dHasKey (keyed after) (Json.str n) = true := dHasKey_keyed_str.mpr hcontra
      rw [hb] at hflt
      exact absurd hflt (by simp)
    · rintro ⟨hmem, hnot⟩
      obtain ⟨r, hr, hrn⟩ := List.mem_map.mp hmem
      refine ⟨List.mem_map.mpr ⟨r, hr, by rw [hrn]⟩, ?_⟩
      rw [Bool.not_eq_true']
      cases hcase : dHasKey (keyed after) (Json.str n) with
      | true => exact absurd (dHasKey_keyed_str.mp hcase) hnot
      | false => rfl
  · rw [List.isEmpty_iff, List.filter_eq_nil_iff]
    constructor
    · intro h n hn
      obtain ⟨r, hr, hrn⟩ := List.mem_map.mp hn
      have hx := h (Json.str (recName r)) (List.mem_map_of_mem _ hr)
      cases hcase : dHasKey (keyed after) (Json.str (recName r)) with
      | true => exact hrn ▸ dHasKey_keyed_str.mp hcase
      | false =>
        exact absurd
          (by simp [hcase] : (!dHasKey (keyed after) (Json.str (recName r))) = true) hx
    · intro h k hk
      obtain ⟨r, hr, hrk⟩ := List.mem_map.mp hk
      intro hcontra
      rw [← hrk, Bool.not_eq_true'] at hcontra
      have hb : dHasKey (keyed after) (Json.str (recName r)) = true :=
        dHasKey_keyed_str.mpr (h (recName r) (List.mem_map_of_mem _ hr))
      rw [hb] at hcontra
      exact absurd hcontra (by simp)

theorem dHasKey_nil (k : Json) : dHasKey [] k = false := rfl

theorem buildByName_wf_nil {l : List Json} (hwf : ∀ r ∈ l, wfRecord r = true)
    (hnd : (l.map recName).Nodup) : buildByName l [] = .ok (keyed l) := by
  have := buildByName_wf l [] hwf hnd (fun r _ => rfl)
  simpa using this

/-- **C1**: `diff(before, after)` classification.  With `before` absent
the diff is valid for anything.  For present, well-formed snapshots the
diff is invalid exactly when a name of `before` is missing from `after`
(the verdict then names exactly the removed features) or a common name
changed its description (the verdict then names such a feature); additions
and arbitrary `passes` changes never invalidate. -/
theorem diff_validity_spec :
    (∀ x : Option Json, validate_feature_changes none x = .ok (true, .noErr)) ∧
    (∀ before after : List Json, wfChecklist before → wfChecklist after →
      ∃ v e, validate_feature_changes (some (.arr before)) (some (.arr after)) =
          .ok (v, e) ∧
        (v = false ↔
          (∃ n ∈ namesOf before, n ∉ namesOf after) ∨
          (∃ n ∈ namesOf before, n ∈ namesOf after ∧ descOf before n ≠ descOf after n)) ∧
        ((∃ n ∈ namesOf before, n ∉ namesOf after) →
          ∃ ks, e = .removed ks ∧
            ∀ n : String, (Json.str n ∈ ks ↔ n ∈ namesOf before ∧ n ∉ namesOf after)) ∧
        ((∀ n ∈ namesOf before, n ∈ namesOf after) → v = false →
          ∃ n, e = .descModified (.str n) ∧ n ∈ namesOf before ∧ n ∈ namesOf after ∧
            descOf before n ≠ descOf after n)) := by
  constructor
  · intro x; rfl
  · intro before after hwb hwa
    obtain ⟨hwfb, hndb⟩ := hwb
    obtain ⟨hwfa, hnda⟩ := hwa
    have hndb' : (before.map recName).Nodup := namesOf_eq_map hwfb ▸ hndb
    have hnda' : (after.map recName).Nodup := namesOf_eq_map hwfa ▸ hnda
    rw [namesOf_eq_map hwfb, namesOf_eq_map hwfa]
    have hbd := buildByName_wf_nil hwfb hndb'
    have had := buildByName_wf_nil hwfa hnda'
    have hval : validate_feature_changes (some (.arr before)) (some (.arr after)) =
        (if (((keyed before).map Prod.fst).filter
              (fun k => !dHasKey (keyed after) k)).isEmpty then
          checkDescs (keyed before) (keyed after)
        else .ok (false, .removed (((keyed before).map Prod.fst).filter
              (fun k => !dHasKey (keyed after) k)))) := by
      simp only [validate_feature_changes, pyIter, hbd, had]
    obtain ⟨hmemRem, hEmpty⟩ := removed_spec before after
    by_cases hrem : (((keyed before).map Prod.fst).filter
        (fun k => !dHasKey (keyed after) k)).isEmpty = true
    · -- no removals: the verdict comes from the description loop
      have hsub : ∀ n ∈ before.map recName, n ∈ after.map recName := hEmpty.mp hrem
      obtain ⟨v, e, heq, hiff, hfalse⟩ := checkDescs_keyed hwfa hnda' before hwfb
      refine ⟨v, e, by rw [hval, if_pos hrem]; exact heq, ?_, ?_, ?_⟩
      · constructor
        · intro hv
          right
          have hnall : ¬(v = true) := by rw [hv]; simp
          rw [hiff] at hnall
          push_neg at hnall
          obtain ⟨r, hr, hmem, hne⟩ := hnall
          exact ⟨recName r, List.mem_map_of_mem recName hr, hmem,
            by rw [descOf_of_mem hwfb hndb' hr]; exact hne⟩
        · rintro (⟨n, hn, hnot⟩ | ⟨n, hn, hmem, hne⟩)
          · exact absurd (hsub n hn) hnot
          · cases hv : v with
            | false => rfl
            | true =>
              exfalso
              obtain ⟨r, hr, hrn⟩ := List.mem_map.mp hn
              have := (hiff.mp hv) r hr (by rw [hrn]; exact hmem)
              rw [← descOf_of_mem hwfb hndb' hr, hrn] at this
              exact hne (hrn ▸ this)
      · rintro ⟨n, hn, hnot⟩
        exact absurd (hsub n hn) hnot
      · intro _ hv
        obtain ⟨r, hr, he, hmem, hne⟩ := hfalse hv
        exact ⟨recName r, he, List.mem_map_of_mem recName hr, hmem,
          by rw [descOf_of_mem hwfb hndb' hr]; exact hne⟩
    · -- at least one name of `before` is missing from `after`
      refine ⟨false, .removed (((keyed before).map Prod.fst).filter
          (fun k => !dHasKey (keyed after) k)), by rw [hval, if_neg hrem], ?_, ?_, ?_⟩
      · simp only [true_iff]
        left
        rcases hr : ((keyed before).map Prod.fst).filter
            (fun k => !dHasKey (keyed after) k) with _ | ⟨k, t⟩
        · rw [hr] at hrem; simp at hrem
        · have hk : k ∈ ((keyed before).map Prod.fst).filter
              (fun k => !dHasKey (keyed after) k) := by
            rw [hr]; exact List.mem_cons_self k t
          have hk2 := (List.mem_filter.mp hk).1
          rw [keyed_map_fst] at hk2
          obtain ⟨r, _, hrk⟩ := List.mem_map.mp hk2
          obtain ⟨hn1, hn2⟩ := (hmemRem (recName r)).mp (by rw [hrk]; exact hk)
          exact ⟨recName r, hn1, hn2⟩
      · intro _
        exact ⟨_, rfl, hmemRem⟩
      · intro hall _
        exact absurd (hEmpty.mpr hall) hrem

/-- A concrete feature record for witness checks. -/
def demoRec (n d : String) (p : Bool) : Json :=
  .obj [("feature", .str n), ("description", .str d), ("passes", .bool p)]

/-- Concrete before snapshot: two features, one passing. -/
def demoBefore : List Json := [demoRec "a" "d1" false, demoRec "b" "d2" true]

/-- Concrete after snapshot: feature `b` removed, `a`'s `passes`
flipped. -/
def demoAfter : List Json := [demoRec "a" "d1" true]

/-- Witness for C1 at concrete well-formed snapshots. -/
theorem diff_validity_spec_witness :
    wfChecklist demoBefore ∧ wfChecklist demoAfter ∧
    (∃ v e, validate_feature_changes (some (.arr demoBefore)) (some (.arr demoAfter)) =
        .ok (v, e) ∧
      (v = false ↔
        (∃ n ∈ namesOf demoBefore, n ∉ namesOf demoAfter) ∨
        (∃ n ∈ namesOf demoBefore, n ∈ namesOf demoAfter ∧
          descOf demoBefore n ≠ descOf demoAfter n)) ∧
      ((∃ n ∈ namesOf demoBefore, n ∉ namesOf demoAfter) →
        ∃ ks, e = .removed ks ∧
          ∀ n : String, (Json.str n ∈ ks ↔ n ∈ namesOf demoBefore ∧ n ∉ namesOf demoAfter)) ∧
      ((∀ n ∈ namesOf demoBefore, n ∈ namesOf demoAfter) → v = false →
        ∃ n, e = .descModified (.str n) ∧ n ∈ namesOf demoBefore ∧ n ∈ namesOf demoAfter ∧
          descOf demoBefore n ≠ descOf demoAfter n)) :=
  ⟨by decide, by decide,
    diff_validity_spec.2 demoBefore demoAfter (by decide) (by decide)⟩

/-- **C10**: the validation keys records by `f.get("feature", "")`.  When
two records of `before` share that key — duplicate names, or two records
both lacking a name (both keyed `""`) — removing one of them yields a diff
judged valid: the removal goes undetected. -/
theorem duplicate_key_removal_undetected :
    (pyGetD (demoRec "x" "d" false) "feature" (.str "") =
      pyGetD (demoRec "x" "d" true) "feature" (.str "")) ∧
    validate_feature_changes
      (some (.arr [demoRec "x" "d" false, demoRec "x" "d" true]))
      (some (.arr [demoRec "x" "d" false])) = .ok (true, .noErr) ∧
    (pyGetD (.obj [("description", .str "d1")]) "feature" (.str "") = .ok (.str "") ∧
      pyGetD (.obj [("description", .str "d2")]) "feature" (.str "") = .ok (.str "")) ∧
    validate_feature_changes
      (some (.arr [.obj [("description", .str "d1")], .obj [("description", .str "d2")]]))
      (some (.arr [.obj [("description", .str "d2")]])) = .ok (true, .noErr) := by
  decide

/-- **C2 counterexample**: an existing, present checklist with zero
records makes `is_project_complete` return `True` (the claim requires at
least one record for completeness), and content that is valid JSON but not
a list of records (here a list holding a string) raises `AttributeError`
instead of being treated as absent. -/
theorem is_project_complete_counterexample :
    is_project_complete (.json (.arr [])) = .ok true ∧
    ([] : List Json).length = 0 ∧
    is_project_complete (.json (.arr [.str "x"])) = .error .attributeError := by
  decide

theorem allPassesTruthy_eq_true_iff : ∀ l : List Json,
    allPassesTruthy l = .ok true ↔
      ∀ f ∈ l, ∃ v, pyGetD f "passes" (.bool false) = .ok v ∧ pyTruthy v = true := by
  intro l
  induction l with
  | nil => simp [allPassesTruthy]
  | cons f rest ih =>
    cases hg : pyGetD f "passes" (.bool false) with
    | error e =>
      simp only [allPassesTruthy, hg]
      constructor
      · intro h; exact absurd h (by simp)
      · intro h
        obtain ⟨v, hv, _⟩ := h f (by simp)
        rw [hg] at hv
        exact absurd hv (by simp)
    | ok v =>
      simp only [allPassesTruthy, hg]
      by_cases ht : pyTruthy v = true
      · rw [if_pos ht, ih]
        constructor
        · intro h x hx
          rcases List.mem_cons.mp hx with h1 | h1
          · exact ⟨v, h1 ▸ hg, ht⟩
          · exact h x h1
        · intro h x hx
          exact h x (by simp [hx])
      · rw [if_neg ht]
        constructor
        · intro h; exact absurd h (by simp)
        · intro h
          obtain ⟨v', hv', ht'⟩ := h f (by simp)
          rw [hg] at hv'
          exact absurd (Except.ok.inj hv' ▸ ht') ht

/-- **C2 amended**: `is_project_complete` is `False` for a missing file
and for content whose decode (`JSONDecodeError`) or iteration
(`TypeError`) fails; it is `True` exactly when the content is present,
iterable, and every element yields a truthy `passes` via `.get` — so an
empty checklist counts as complete, and a non-record element reached by
the scan raises instead of returning. -/
theorem is_project_complete_characterization :
    (is_project_complete .absent = .ok false) ∧
    (is_project_complete .unparsable = .ok false) ∧
    (∀ j, pyIter j = none → is_project_complete (.json j) = .ok false) ∧
    (∀ fc, is_project_complete fc = .ok true ↔
      ∃ j l, fc = .json j ∧ pyIter j = some l ∧
        ∀ f ∈ l, ∃ v, pyGetD f "passes" (.bool false) = .ok v ∧ pyTruthy v = true) := by
  refine ⟨rfl, rfl, ?_, ?_⟩
  · intro j h
    simp [is_project_complete, h]
  · intro fc
    cases fc with
    | absent => simp [is_project_complete]
    | unparsable => simp [is_project_complete]
    | json j =>
      cases hi : pyIter j with
      | none =>
        simp only [is_project_complete, hi]
        constructor
        · intro h; exact absurd h (by simp)
        · rintro ⟨j', l, hj, hil, _⟩
          rw [FileContent.json.inj hj] at hi
          rw [hi] at hil
          exact absurd hil (by simp)
      | some l =>
        simp only [is_project_complete, hi]
        rw [allPassesTruthy_eq_true_iff l]
        constructor
        · intro h
          exact ⟨j, l, rfl, hi, h⟩
        · rintro ⟨j', l', hj, hil, h⟩
          rw [FileContent.json.inj hj] at hi
          rw [hi] at hil
          rw [Option.some.inj hil]
          exact h

/-- Witness for C2 at concrete inputs: non-iterable content gives `False`,
and a one-record all-passing checklist gives `True`. -/
theorem is_project_complete_characterization_witness :
    pyIter (Json.num 7) = none ∧
    is_project_complete (.json (.num 7)) = .ok false ∧
    is_project_complete (.json (.arr [demoRec "a" "d" true])) = .ok true :=
  ⟨by decide, is_project_complete_characterization.2.2.1 (Json.num 7) (by decide),
    (is_project_complete_characterization.2.2.2 _).mpr
      ⟨.arr [demoRec "a" "d" true], [demoRec "a" "d" true], rfl, rfl, by
        intro f hf
        rw [List.mem_singleton] at hf
        subst hf
        exact ⟨.bool true, by decide, by decide⟩⟩⟩

/-! ## Session-log structure

`ContainsInOrder s parts` states that the strings `parts` occur in `s`, in
order, as disjoint contiguous substrings. -/

/-- The given parts occur, in order, as disjoint contiguous substrings. -/
def ContainsInOrder (s : String) : List String → Prop
  | [] => True
  | p :: ps => ∃ pre rest, s = pre ++ (p ++ rest) ∧ ContainsInOrder rest ps

theorem cio_nil (s : String) : ContainsInOrder s [] := trivial

theorem cio_here {rest : String} {ps : List String} (p : String)
    (h : ContainsInOrder rest ps) : ContainsInOrder (p ++ rest) (p :: ps) :=
  ⟨"", rest, by rw [String.empty_append], h⟩

theorem cio_skip {s : String} {ps : List String} (x : String)
    (h : ContainsInOrder s ps) : ContainsInOrder (x ++ s) ps := by
  cases ps with
  | nil => trivial
  | cons p t =>
    obtain ⟨pre, rest, heq, h2⟩ := h
    exact ⟨x ++ pre, rest, by rw [heq, String.append_assoc], h2⟩

theorem cio_last (s : String) : ContainsInOrder s [s] :=
  ⟨"", "", by rw [String.empty_append, String.append_empty], trivial⟩

/-- The header, prompt and stdout sections occur in the log in the fixed
order. -/
theorem wsl_sections (st now : String) (d : Nat) (prompt stdout stderr : String) :
    ContainsInOrder (write_session_log st now d prompt stdout stderr)
      ["Session Type: ", st, "Timestamp: ", now, "Duration: ", fmtDuration d,
        "PROMPT:\n", prompt, "STDOUT:\n"] := by
  unfold write_session_log
  exact cio_here _ (cio_here _ (cio_skip "\n" (cio_here _ (cio_here _ (cio_skip "\n"
    (cio_here _ (cio_here _ (cio_skip "s\n" (cio_skip "\n" (cio_skip sepBar
    (cio_skip "\n" (cio_here _ (cio_skip sepBar (cio_skip "\n\n" (cio_here _
    (cio_skip "\n\n" (cio_skip sepBar (cio_skip "\n" (cio_here _ (cio_nil _))))))))))))))))))))

/-- With a non-empty stdout, the captured output itself follows the
`STDOUT:` marker. -/
theorem wsl_sections_stdout (st now : String) (d : Nat)
    (prompt stdout stderr : String) (h : stdout ≠ "") :
    ContainsInOrder (write_session_log st now d prompt stdout stderr)
      ["Session Type: ", st, "Timestamp: ", now, "Duration: ", fmtDuration d,
        "PROMPT:\n", prompt, "STDOUT:\n", stdout] := by
  unfold write_session_log
  rw [if_neg h]
  exact cio_here _ (cio_here _ (cio_skip "\n" (cio_here _ (cio_here _ (cio_skip "\n"
    (cio_here _ (cio_here _ (cio_skip "s\n" (cio_skip "\n" (cio_skip sepBar
    (cio_skip "\n" (cio_here _ (cio_skip sepBar (cio_skip "\n\n" (cio_here _
    (cio_skip "\n\n" (cio_skip sepBar (cio_skip "\n" (cio_here _ (cio_skip sepBar
    (cio_skip "\n\n" (cio_here _ (cio_nil _)))))))))))))))))))))))

/-- With a non-empty stderr, the error section and the captured error text
follow the stdout section. -/
theorem wsl_sections_stderr (st now : String) (d : Nat)
    (prompt stdout stderr : String) (h : stderr ≠ "") :
    ContainsInOrder (write_session_log st now d prompt stdout stderr)
      ["Session Type: ", st, "Timestamp: ", now, "Duration: ", fmtDuration d,
        "PROMPT:\n", prompt, "STDOUT:\n", "STDERR:\n", stderr] := by
  unfold write_session_log
  rw [if_neg h]
  exact cio_here _ (cio_here _ (cio_skip "\n" (cio_here _ (cio_here _ (cio_skip "\n"
    (cio_here _ (cio_here _ (cio_skip "s\n" (cio_skip "\n" (cio_skip sepBar
    (cio_skip "\n" (cio_here _ (cio_skip sepBar (cio_skip "\n\n" (cio_here _
    (cio_skip "\n\n" (cio_skip sepBar (cio_skip "\n" (cio_here _ (cio_skip sepBar
    (cio_skip "\n\n" (cio_skip _ (cio_skip "\n\n" (cio_skip sepBar (cio_skip "\n"
    (cio_here _ (cio_skip sepBar (cio_skip "\n\n" (cio_last _)))))))))))))))))))))))))))))

/-- **C6**: on every outcome of `run_session` — normal return, timeout, or
any other failure — exactly one session log artifact is written before the
call returns, and the log contains the session kind, timestamp, duration,
the full prompt, the full captured output and (when present) the full
captured error text, in the fixed section order header, prompt, output,
error. -/
theorem session_log_every_outcome (sessionType prompt now : String)
    (timeoutSecs : Nat) (ag : AgentOutcome) :
    (run_session sessionType prompt timeoutSecs now ag).logs =
      [write_session_log sessionType now ag.durationTenths prompt
        (logStdoutOf ag) (logStderrOf timeoutSecs ag)] ∧
    (∀ (d : Nat) (stdout stderr : String),
      ContainsInOrder (write_session_log sessionType now d prompt stdout stderr)
        ["Session Type: ", sessionType, "Timestamp: ", now, "Duration: ",
          fmtDuration d, "PROMPT:\n", prompt, "STDOUT:\n"] ∧
      (stdout ≠ "" →
        ContainsInOrder (write_session_log sessionType now d prompt stdout stderr)
          ["Session Type: ", sessionType, "Timestamp: ", now, "Duration: ",
            fmtDuration d, "PROMPT:\n", prompt, "STDOUT:\n", stdout]) ∧
      (stderr ≠ "" →
        ContainsInOrder (write_session_log sessionType now d prompt stdout stderr)
          ["Session Type: ", sessionType, "Timestamp: ", now, "Duration: ",
            fmtDuration d, "PROMPT:\n", prompt, "STDOUT:\n", "STDERR:\n", stderr])) := by
  constructor
  · cases ag <;> rfl
  · intro d stdout stderr
    exact ⟨wsl_sections sessionType now d prompt stdout stderr,
      fun h => wsl_sections_stdout sessionType now d prompt stdout stderr h,
      fun h => wsl_sections_stderr sessionType now d prompt stdout stderr h⟩

/-- Witness for C6 at a concrete timeout outcome with non-empty error
text. -/
theorem session_log_every_outcome_witness :
    (run_session "coding" "PROMPT_TEXT" 1800 "2024-01-01T00:00:00" (.timesOut 123)).logs =
      [write_session_log "coding" "2024-01-01T00:00:00" 123 "PROMPT_TEXT" ""
        "TIMEOUT after 1800s"] ∧
    ContainsInOrder
      (write_session_log "coding" "2024-01-01T00:00:00" 123 "PROMPT_TEXT" ""
        "TIMEOUT after 1800s")
      ["Session Type: ", "coding", "Timestamp: ", "2024-01-01T00:00:00", "Duration: ",
        fmtDuration 123, "PROMPT:\n", "PROMPT_TEXT", "STDOUT:\n", "STDERR:\n",
        "TIMEOUT after 1800s"] := by
  have h := session_log_every_outcome "coding" "PROMPT_TEXT" "2024-01-01T00:00:00"
    1800 (.timesOut 123)
  exact ⟨h.1, ((h.2 123 "" "TIMEOUT after 1800s").2.2 (by decide))⟩

/-! ## Unfolding one loop iteration -/

/-- The session kind `run_agent_loop` selects at the top of an
iteration. -/
def chosenSessionType (cfg : Config) (st : LoopState) : String :=
  if st.needsEnhancementInit then "enhancement_init"
  else if !fileExists st.file then
    (if cfg.isAdoption then "adoption_init" else "initializer")
  else "coding"

/-- One iteration, written out: when the completion check, the snapshots,
the validation and the newly-completed computation all produce values (no
uncaught exception) and the ceiling does not fire, the iteration runs one
session of the selected kind, applies the restore policy, reports
progress, and either stops on the operator's keypress or hands the updated
state to the next iteration. -/
theorem loopIter_eq (cfg : Config) (st : LoopState) (env : IterEnv)
    (prev : Nat) (isValid : Bool) (verr : VError) (bns newly : List Json)
    (file2 : FileContent) (featAfter2 : Option Json) (warnEvs : List Event)
    (hc : is_project_complete st.file = .ok false)
    (hm : hitsMaxSessions cfg.maxSessions (st.sessionCount + 1) = false)
    (hp : countPassing (load_features st.file) = .ok prev)
    (hv : validate_feature_changes (load_features st.file)
      (load_features env.fileAfter) = .ok (isValid, verr))
    (hpost : (if isValid then (env.fileAfter, load_features env.fileAfter, ([] : List Event))
        else match load_features st.file with
          | some fb => (save_features fb, some fb,
              [Event.warnInvalidChange verr, Event.warnRestoring])
          | none => (env.fileAfter, load_features env.fileAfter,
              [Event.warnInvalidChange verr]))
      = (file2, featAfter2, warnEvs))
    (hbn : passingNames (load_features st.file) = .ok bns)
    (hnw : newlyCompleted featAfter2 bns = .ok newly) :
    loopIter cfg st env =
      (let sessionType := chosenSessionType cfg st
       let sr := run_session sessionType (promptFor sessionType) cfg.timeoutSecs
         env.now env.outcome
       let evs := (Event.ranSession sessionType sr.logs :: sr.events) ++ warnEvs ++
         [Event.sessionProgress file2 newly sr.durationTenths prev
           (st.totalTenths + sr.durationTenths)]
       let st2 : LoopState :=
         { file := file2, sessionCount := st.sessionCount + 1
           totalTenths := st.totalTenths + sr.durationTenths
           needsEnhancementInit := if st.needsEnhancementInit then false
             else st.needsEnhancementInit }
       if (wait_for_stop_signal 10 env.wait).1 then
         .finished .userStopped (evs ++ [Event.userStoppedMsg]) st2
       else .next st2 evs) := by
  rw [loopIter, hc]
  simp only [hm, Bool.false_eq_true, if_false]
  rw [hp, hv]
  simp only [hpost, hbn, hnw, chosenSessionType]

theorem str_append_ne_empty_left (a b : String) (h : a ≠ "") : a ++ b ≠ "" := by
  intro hc
  apply h
  have hd := congrArg String.data hc
  rw [String.data_append] at hd
  have h1 : a.data = [] := (List.append_eq_nil.mp hd).1
  cases a with
  | mk l =>
    simp only [String.data] at h1
    subst h1
    rfl

/-- **C5 counterexample**: when the agent invocation raises
`subprocess.TimeoutExpired`, `run_session` returns status `"error"` (with
response text `"timeout"`), not a distinct status `"timeout"`. -/
theorem timeout_status_counterexample :
    (run_session "coding" "PROMPT_TEXT" 1800 "TS" (.timesOut 55)).status = "error" ∧
    ¬((run_session "coding" "PROMPT_TEXT" 1800 "TS" (.timesOut 55)).status = "timeout") ∧
    (run_session "coding" "PROMPT_TEXT" 1800 "TS" (.timesOut 55)).response = "timeout" := by
  decide

/-- **C5 amended**: on a timeout `run_session` returns status `"error"`
with response text `"timeout"` (its status vocabulary is only
`continue` / `error`), writes one session log record whose error section
carries `TIMEOUT after {timeout}s` (the configured timeout duration), and
the loop — which ignores the returned status — proceeds to its next
iteration rather than terminating. -/
theorem timeout_handling_amended (cfg : Config) (st : LoopState) (env : IterEnv)
    (d prev : Nat) (isValid : Bool) (verr : VError) (bns newly : List Json)
    (file2 : FileContent) (featAfter2 : Option Json) (warnEvs : List Event)
    (hto : env.outcome = .timesOut d)
    (hc : is_project_complete st.file = .ok false)
    (hm : hitsMaxSessions cfg.maxSessions (st.sessionCount + 1) = false)
    (hp : countPassing (load_features st.file) = .ok prev)
    (hv : validate_feature_changes (load_features st.file)
      (load_features env.fileAfter) = .ok (isValid, verr))
    (hpost : (if isValid then (env.fileAfter, load_features env.fileAfter, ([] : List Event))
        else match load_features st.file with
          | some fb => (save_features fb, some fb,
              [Event.warnInvalidChange verr, Event.warnRestoring])
          | none => (env.fileAfter, load_features env.fileAfter,
              [Event.warnInvalidChange verr]))
      = (file2, featAfter2, warnEvs))
    (hbn : passingNames (load_features st.file) = .ok bns)
    (hnw : newlyCompleted featAfter2 bns = .ok newly)
    (hw : (wait_for_stop_signal 10 env.wait).1 = false) :
    ∀ sessionType prompt now : String,
      (run_session sessionType prompt cfg.timeoutSecs now (.timesOut d)).status = "error" ∧
      (run_session sessionType prompt cfg.timeoutSecs now (.timesOut d)).response = "timeout" ∧
      (run_session sessionType prompt cfg.timeoutSecs now (.timesOut d)).logs =
        [write_session_log sessionType now d prompt ""
          ("TIMEOUT after " ++ toString cfg.timeoutSecs ++ "s")] ∧
      ContainsInOrder
        (write_session_log sessionType now d prompt ""
          ("TIMEOUT after " ++ toString cfg.timeoutSecs ++ "s"))
        ["Session Type: ", sessionType, "Timestamp: ", now, "Duration: ",
          fmtDuration d, "PROMPT:\n", prompt, "STDOUT:\n", "STDERR:\n",
          "TIMEOUT after " ++ toString cfg.timeoutSecs ++ "s"] ∧
      (∃ st2 evs, loopIter cfg st env = .next st2 evs) := by
  intro sessionType prompt now
  refine ⟨rfl, rfl, rfl,
    wsl_sections_stderr sessionType now d prompt ""
      ("TIMEOUT after " ++ toString cfg.timeoutSecs ++ "s")
      (str_append_ne_empty_left _ _ (str_append_ne_empty_left _ _ (by decide))), ?_⟩
  rw [loopIter_eq cfg st env prev isValid verr bns newly file2 featAfter2 warnEvs
    hc hm hp hv hpost hbn hnw]
  simp only [hw, Bool.false_eq_true, if_false]
  exact ⟨_, _, rfl⟩

/-- One-failing-feature checklist used by the loop witnesses. -/
def loopFile : FileContent := .json (.arr [demoRec "a" "d1" false])

/-- Loop configuration used by the loop witnesses. -/
def loopCfg : Config := { maxSessions := none, isAdoption := false, timeoutSecs := 1800 }

/-- Initial loop state used by the loop witnesses. -/
def loopSt : LoopState :=
  { file := loopFile, sessionCount := 0, totalTenths := 0, needsEnhancementInit := false }

/-- Iteration environment of a timed-out session that leaves the
checklist unchanged, with a non-interactive stdin. -/
def loopEnvTO : IterEnv :=
  { outcome := .timesOut 55, fileAfter := loopFile, now := "TS"
    wait := { isatty := false, keyAt := none } }

/-- Witness for C5 at a concrete timed-out iteration. -/
theorem timeout_handling_amended_witness :
    (run_session "coding" "P" loopCfg.timeoutSecs "TS" (.timesOut 55)).status = "error" ∧
    (run_session "coding" "P" loopCfg.timeoutSecs "TS" (.timesOut 55)).response = "timeout" ∧
    (∃ st2 evs, loopIter loopCfg loopSt loopEnvTO = .next st2 evs) := by
  have h := timeout_handling_amended loopCfg loopSt loopEnvTO 55 0 true .noErr
    [] [] loopFile (load_features loopFile) [] rfl (by decide) (by decide) (by decide)
    (by decide) rfl (by decide) (by decide) (by decide) "coding" "P" "TS"
  exact ⟨h.1, h.2.1, h.2.2.2.2⟩

/-! ## Interruptible-wait lemmas -/

theorem waitPoll_hit : ∀ (r i j : Nat), i ≤ j → j < i + r →
    waitPoll (some j) r i = (true, 1) := by
  intro r
  induction r with
  | zero => intro i j h1 h2; omega
  | succ n ih =>
    intro i j h1 h2
    simp only [waitPoll]
    by_cases h : j = i
    · rw [if_pos (by rw [h])]
    · rw [if_neg (fun hc => h (Option.some.inj hc))]
      exact ih (i + 1) j (by omega) (by omega)

theorem waitPoll_none : ∀ (r i : Nat), waitPoll none r i = (false, 0) := by
  intro r
  induction r with
  | zero => intro i; rfl
  | succ n ih =>
    intro i
    simp only [waitPoll]
    rw [if_neg (by simp)]
    exact ih (i + 1)

theorem waitPoll_late : ∀ (r i j : Nat), i + r ≤ j →
    waitPoll (some j) r i = (false, 0) := by
  intro r
  induction r with
  | zero => intro i j _; rfl
  | succ n ih =>
    intro i j h
    simp only [waitPoll]
    rw [if_neg (fun hc => by have := Option.some.inj hc; omega)]
    exact ih (i + 1) j (by omega)


/-- The session events the iteration appends when it reaches the agent
invocation. -/
def sessEvs (cfg : Config) (st : LoopState) (env : IterEnv) : List Event :=
  Event.ranSession (chosenSessionType cfg st)
      (run_session (chosenSessionType cfg st) (promptFor (chosenSessionType cfg st))
        cfg.timeoutSecs env.now env.outcome).logs ::
    (run_session (chosenSessionType cfg st) (promptFor (chosenSessionType cfg st))
      cfg.timeoutSecs env.now env.outcome).events

/-- Every iteration result is a crash, an immediate terminal (complete or
ceiling, with no session run), or runs through to the wait, whose verdict
alone decides between stopping with `userStopped` and continuing. -/
theorem loopIter_disj (cfg : Config) (st : LoopState) (env : IterEnv) :
    (∃ e evs, loopIter cfg st env = .crashed e evs) ∨
    (loopIter cfg st env = .finished .complete [.completeMsg] st) ∨
    (∃ n st2, loopIter cfg st env = .finished .maxSessionsReached [.maxSessionsMsg n] st2) ∨
    (∃ st2 evs,
      ((wait_for_stop_signal 10 env.wait).1 = true ∧
        loopIter cfg st env = .finished .userStopped (evs ++ [Event.userStoppedMsg]) st2) ∨
      ((wait_for_stop_signal 10 env.wait).1 = false ∧
        loopIter cfg st env = .next st2 evs)) := by
  cases hcm : is_project_complete st.file with
  | error e => exact Or.inl ⟨e, [], by rw [loopIter, hcm]⟩
  | ok b =>
    cases b with
    | true => exact Or.inr (Or.inl (by rw [loopIter, hcm]))
    | false =>
      cases hmx : hitsMaxSessions cfg.maxSessions (st.sessionCount + 1) with
      | true =>
        refine Or.inr (Or.inr (Or.inl ⟨cfg.maxSessions.getD 0,
          { st with sessionCount := st.sessionCount + 1 }, ?_⟩))
        rw [loopIter, hcm]
        simp only [hmx, if_true]
      | false =>
        cases hcp : countPassing (load_features st.file) with
        | error e =>
          refine Or.inl ⟨e, [], ?_⟩
          rw [loopIter, hcm]
          simp only [hmx, Bool.false_eq_true, if_false, hcp]
        | ok prev =>
          cases hvl : validate_feature_changes (load_features st.file)
              (load_features env.fileAfter) with
          | error e =>
            refine Or.inl ⟨e, sessEvs cfg st env, ?_⟩
            rw [loopIter, hcm]
            simp only [hmx, Bool.false_eq_true, if_false, hcp, hvl, sessEvs,
              chosenSessionType]
          | ok p =>
            obtain ⟨isValid, verr⟩ := p
            rcases htrip : (if isValid then
                (env.fileAfter, load_features env.fileAfter, ([] : List Event))
              else match load_features st.file with
                | some fb => (save_features fb, some fb,
                    [Event.warnInvalidChange verr, Event.warnRestoring])
                | none => (env.fileAfter, load_features env.fileAfter,
                    [Event.warnInvalidChange verr])) with ⟨file2, featAfter2, warnEvs⟩
            cases hbn : passingNames (load_features st.file) with
            | error e =>
              refine Or.inl ⟨e, sessEvs cfg st env ++ warnEvs, ?_⟩
              rw [loopIter, hcm]
              simp only [hmx, Bool.false_eq_true, if_false, hcp, hvl, htrip, hbn,
                sessEvs, chosenSessionType]
            | ok bns =>
              cases hnw : newlyCompleted featAfter2 bns with
              | error e =>
                refine Or.inl ⟨e, sessEvs cfg st env ++ warnEvs, ?_⟩
                rw [loopIter, hcm]
                simp only [hmx, Bool.false_eq_true, if_false, hcp, hvl, htrip, hbn, hnw,
                  sessEvs, chosenSessionType]
              | ok newly =>
                have heq := loopIter_eq cfg st env prev isValid verr bns newly
                  file2 featAfter2 warnEvs hcm hmx hcp hvl htrip hbn hnw
                cases hwt : (wait_for_stop_signal 10 env.wait).1 with
                | true =>
                  simp only [hwt, if_true] at heq
                  exact Or.inr (Or.inr (Or.inr ⟨_, _, Or.inl ⟨rfl, heq⟩⟩))
                | false =>
                  simp only [hwt, Bool.false_eq_true, if_false] at heq
                  exact Or.inr (Or.inr (Or.inr ⟨_, _, Or.inr ⟨rfl, heq⟩⟩))

theorem loopIter_next_wait (cfg : Config) (st : LoopState) (env : IterEnv)
    (st2 : LoopState) (evs : List Event)
    (h : loopIter cfg st env = .next st2 evs) :
    (wait_for_stop_signal 10 env.wait).1 = false := by
  rcases loopIter_disj cfg st env with ⟨e, evs2, hc⟩ | hc | ⟨n, s2, hc⟩ |
    ⟨s2, evs2, ⟨hw, hc⟩ | ⟨hw, hc⟩⟩ <;> rw [h] at hc
  · exact absurd hc (by simp)
  · exact absurd hc (by simp)
  · exact absurd hc (by simp)
  · exact absurd hc (by simp)
  · exact hw

theorem loopIter_finished_session (cfg : Config) (st : LoopState) (env : IterEnv)
    (o : Outcome) (evs : List Event) (fin : LoopState)
    (h : loopIter cfg st env = .finished o evs fin) (hs : sessionsIn evs ≠ 0) :
    o = .userStopped := by
  rcases loopIter_disj cfg st env with ⟨e, evs2, hc⟩ | hc | ⟨n, s2, hc⟩ |
    ⟨s2, evs2, ⟨hw, hc⟩ | ⟨hw, hc⟩⟩ <;> rw [h] at hc
  · exact absurd hc (by simp)
  · rw [Step.finished.injEq] at hc
    rw [hc.2.1] at hs
    exact absurd rfl hs
  · rw [Step.finished.injEq] at hc
    rw [hc.2.1] at hs
    exact absurd rfl hs
  · rw [Step.finished.injEq] at hc
    exact hc.1
  · exact absurd hc (by simp)

/-- **C7**: `wait_for_stop_signal` returns false immediately (no polling,
nothing consumed) when stdin is not interactive; with an interactive stdin
it returns true, consuming exactly one input event, as soon as a keypress
arrives inside the timeout window, and false (nothing consumed) when no
key arrives within the timeout; and whenever the wait reports true, the
loop iteration never continues to a next iteration — if it terminates
having run a session, the outcome is user-stopped. -/
theorem wait_for_stop_spec :
    (∀ (t : Nat) (env : WaitEnv), env.isatty = false →
      wait_for_stop_signal t env = (false, 0)) ∧
    (∀ (t j : Nat) (env : WaitEnv), env.isatty = true → env.keyAt = some j → j < t →
      wait_for_stop_signal t env = (true, 1)) ∧
    (∀ (t : Nat) (env : WaitEnv), env.isatty = true → env.keyAt = none →
      wait_for_stop_signal t env = (false, 0)) ∧
    (∀ (t j : Nat) (env : WaitEnv), env.isatty = true → env.keyAt = some j → t ≤ j →
      wait_for_stop_signal t env = (false, 0)) ∧
    (∀ (cfg : Config) (st : LoopState) (env : IterEnv),
      (wait_for_stop_signal 10 env.wait).1 = true →
      (∀ st2 evs, loopIter cfg st env ≠ .next st2 evs) ∧
      (∀ o evs fin, loopIter cfg st env = .finished o evs fin → sessionsIn evs ≠ 0 →
        o = .userStopped)) := by
  refine ⟨?_, ?_, ?_, ?_, ?_⟩
  · intro t env h
    rw [wait_for_stop_signal, if_pos h]
  · intro t j env h hk hj
    rw [wait_for_stop_signal, if_neg (by rw [h]; simp), hk]
    exact waitPoll_hit t 0 j (by omega) (by omega)
  · intro t env h hk
    rw [wait_for_stop_signal, if_neg (by rw [h]; simp), hk]
    exact waitPoll_none t 0
  · intro t j env h hk hj
    rw [wait_for_stop_signal, if_neg (by rw [h]; simp), hk]
    exact waitPoll_late t 0 j (by omega)
  · intro cfg st env hw
    constructor
    · intro st2 evs hc
      have := loopIter_next_wait cfg st env st2 evs hc
      rw [hw] at this
      exact absurd this (by simp)
    · intro o evs fin hpc hs
      exact loopIter_finished_session cfg st env o evs fin hpc hs

/-- Iteration environment where the operator presses a key during the
wait. -/
def loopEnvStop : IterEnv :=
  { outcome := .returns "out" "" 50, fileAfter := loopFile, now := "TS"
    wait := { isatty := true, keyAt := some 3 } }

/-- Witness for C7 at concrete wait environments and a concrete stopping
iteration. -/
theorem wait_for_stop_spec_witness :
    wait_for_stop_signal 10 { isatty := false, keyAt := some 0 } = (false, 0) ∧
    wait_for_stop_signal 10 { isatty := true, keyAt := some 4 } = (true, 1) ∧
    wait_for_stop_signal 10 { isatty := true, keyAt := none } = (false, 0) ∧
    wait_for_stop_signal 10 { isatty := true, keyAt := some 10 } = (false, 0) ∧
    (∀ st2 evs, loopIter loopCfg loopSt loopEnvStop ≠ .next st2 evs) :=
  ⟨wait_for_stop_spec.1 10 _ (by decide),
    wait_for_stop_spec.2.1 10 4 _ (by decide) (by decide) (by decide),
    wait_for_stop_spec.2.2.1 10 _ (by decide) (by decide),
    wait_for_stop_spec.2.2.2.1 10 10 _ (by decide) (by decide) (by decide),
    (wait_for_stop_spec.2.2.2.2 loopCfg loopSt loopEnvStop (by decide)).1⟩

/-- **C8**: with `total = 0` (no checklist yet) the progress summary
prints the "feature_list.json not yet created" line and the progress bar
prints nothing — neither produces a numeric percentage line; every numeric
line either reporter can produce carries a strictly positive total, so the
percent division is only evaluated with a non-zero total. -/
theorem zero_total_progress :
    (∀ (fc : FileContent) (p : Nat), count_passing_tests fc = .ok (p, 0) →
      print_progress_summary fc = .ok [.noChecklistMsg]) ∧
    (∀ (fc : FileContent) (p : Nat) (prev : Option Nat),
      get_progress_stats fc = .ok (p, 0) → print_progress_bar fc prev = .ok []) ∧
    (∀ (fc : FileContent) (out : List ProgLine), print_progress_summary fc = .ok out →
      ∀ l ∈ out, ∀ pp t pct, l = .numericSummary pp t pct → 0 < t) ∧
    (∀ (fc : FileContent) (prev : Option Nat) (out : List ProgLine),
      print_progress_bar fc prev = .ok out →
      ∀ l ∈ out, ∀ pv pp t pct, l = .numericBar pv pp t pct → 0 < t) := by
  refine ⟨?_, ?_, ?_, ?_⟩
  · intro fc p h
    simp only [print_progress_summary, h]
    rw [if_neg (by omega)]
  · intro fc p prev h
    simp only [print_progress_bar, h]
    rw [if_neg (by omega)]
  · intro fc out h l hl pp t pct he
    rw [print_progress_summary] at h
    cases hst : count_passing_tests fc with
    | error e => rw [hst] at h; exact absurd h (by simp)
    | ok pr =>
      obtain ⟨passing, total⟩ := pr
      simp only [hst] at h
      by_cases ht : 0 < total
      · rw [if_pos ht] at h
        have hout := Except.ok.inj h
        rw [← hout] at hl
        rw [List.mem_singleton] at hl
        rw [hl] at he
        rw [ProgLine.numericSummary.injEq] at he
        rw [← he.2.1]
        exact ht
      · rw [if_neg ht] at h
        have hout := Except.ok.inj h
        rw [← hout] at hl
        rw [List.mem_singleton] at hl
        rw [hl] at he
        exact absurd he (by simp)
  · intro fc prev out h l hl pv pp t pct he
    rw [print_progress_bar] at h
    cases hst : get_progress_stats fc with
    | error e => rw [hst] at h; exact absurd h (by simp)
    | ok pr =>
      obtain ⟨passing, total⟩ := pr
      simp only [hst] at h
      by_cases ht : 0 < total
      · rw [if_pos ht] at h
        have hout := Except.ok.inj h
        rw [← hout] at hl
        rw [List.mem_singleton] at hl
        rw [hl] at he
        rw [ProgLine.numericBar.injEq] at he
        rw [← he.2.2.1]
        exact ht
      · rw [if_neg ht] at h
        have hout := Except.ok.inj h
        rw [← hout] at hl
        exact absurd hl (by simp)

/-- Witness for C8: a missing file has `total = 0`; the summary reports
the no-checklist line and the bar prints nothing. -/
theorem zero_total_progress_witness :
    count_passing_tests .absent = .ok (0, 0) ∧
    print_progress_summary .absent = .ok [.noChecklistMsg] ∧
    print_progress_bar .absent none = .ok [] :=
  ⟨by decide, zero_total_progress.1 .absent 0 (by decide),
    zero_total_progress.2.1 .absent 0 none (by decide)⟩

/-! ## Session-count accounting -/

theorem sessionsIn_append (a b : List Event) :
    sessionsIn (a ++ b) = sessionsIn a + sessionsIn b := by
  simp [sessionsIn, List.countP_append]

theorem sessionsIn_nil : sessionsIn [] = 0 := rfl

theorem sessionsIn_run_session_events (t p now : String) (ts : Nat) (ag : AgentOutcome) :
    sessionsIn (run_session t p ts now ag).events = 0 := by
  cases ag <;> simp [run_session, sessionsIn, List.countP_cons, Event.isSession]

theorem sessionsIn_triple (isValid : Bool) (verr : VError) (fa : FileContent)
    (fb : Option Json) :
    sessionsIn (if isValid then (fa, load_features fa, ([] : List Event))
      else match fb with
        | some x => (save_features x, some x,
            [Event.warnInvalidChange verr, Event.warnRestoring])
        | none => (fa, load_features fa, [Event.warnInvalidChange verr])).2.2 = 0 := by
  cases isValid <;> cases fb <;>
    simp [sessionsIn, List.countP_cons, Event.isSession]

/-- Per-iteration session accounting: every iteration records at most one
session; an iteration whose ceiling check fires records none and never
continues; a continuing iteration advances the session counter by exactly
one. -/
theorem loopIter_bound (cfg : Config) (st : LoopState) (env : IterEnv) :
    (∀ e evs, loopIter cfg st env = .crashed e evs → sessionsIn evs ≤ 1) ∧
    (∀ o evs fin, loopIter cfg st env = .finished o evs fin → sessionsIn evs ≤ 1) ∧
    (∀ st2 evs, loopIter cfg st env = .next st2 evs →
      sessionsIn evs ≤ 1 ∧ st2.sessionCount = st.sessionCount + 1) ∧
    (hitsMaxSessions cfg.maxSessions (st.sessionCount + 1) = true →
      (∀ e evs, loopIter cfg st env = .crashed e evs → sessionsIn evs = 0) ∧
      (∀ o evs fin, loopIter cfg st env = .finished o evs fin → sessionsIn evs = 0) ∧
      (∀ st2 evs, loopIter cfg st env ≠ .next st2 evs)) := by
  cases hcm : is_project_complete st.file with
  | error e =>
    have hli : loopIter cfg st env = .crashed e [] := by rw [loopIter, hcm]
    refine ⟨?_, ?_, ?_, ?_⟩
    · intro e2 evs h
      rw [hli, Step.crashed.injEq] at h
      rw [← h.2, sessionsIn_nil]
      omega
    · intro o evs fin h
      rw [hli] at h
      exact absurd h (by simp)
    · intro st2 evs h
      rw [hli] at h
      exact absurd h (by simp)
    · intro _
      refine ⟨?_, ?_, ?_⟩
      · intro e2 evs h
        rw [hli, Step.crashed.injEq] at h
        rw [← h.2, sessionsIn_nil]
      · intro o evs fin h
        rw [hli] at h
        exact absurd h (by simp)
      · intro st2 evs h
        rw [hli] at h
        exact absurd h (by simp)
  | ok b =>
    cases b with
    | true =>
      have hli : loopIter cfg st env = .finished .complete [.completeMsg] st := by
        rw [loopIter, hcm]
      refine ⟨?_, ?_, ?_, ?_⟩
      · intro e2 evs h
        rw [hli] at h
        exact absurd h (by simp)
      · intro o evs fin h
        rw [hli, Step.finished.injEq] at h
        rw [← h.2.1]
        simp [sessionsIn, List.countP_cons, Event.isSession]
      · intro st2 evs h
        rw [hli] at h
        exact absurd h (by simp)
      · intro _
        refine ⟨?_, ?_, ?_⟩
        · intro e2 evs h
          rw [hli] at h
          exact absurd h (by simp)
        · intro o evs fin h
          rw [hli, Step.finished.injEq] at h
          rw [← h.2.1]
          simp [sessionsIn, List.countP_cons, Event.isSession]
        · intro st2 evs h
          rw [hli] at h
          exact absurd h (by simp)
    | false =>
      cases hmx : hitsMaxSessions cfg.maxSessions (st.sessionCount + 1) with
      | true =>
        have hli : loopIter cfg st env = .finished .maxSessionsReached
            [.maxSessionsMsg (cfg.maxSessions.getD 0)]
            { st with sessionCount := st.sessionCount + 1 } := by
          rw [loopIter, hcm]
          simp only [hmx, if_true]
        refine ⟨?_, ?_, ?_, ?_⟩
        · intro e2 evs h
          rw [hli] at h
          exact absurd h (by simp)
        · intro o evs fin h
          rw [hli, Step.finished.injEq] at h
          rw [← h.2.1]
          simp [sessionsIn, List.countP_cons, Event.isSession]
        · intro st2 evs h
          rw [hli] at h
          exact absurd h (by simp)
        · intro _
          refine ⟨?_, ?_, ?_⟩
          · intro e2 evs h
            rw [hli] at h
            exact absurd h (by simp)
          · intro o evs fin h
            rw [hli, Step.finished.injEq] at h
            rw [← h.2.1]
            simp [sessionsIn, List.countP_cons, Event.isSession]
          · intro st2 evs h
            rw [hli] at h
            exact absurd h (by simp)
      | false =>
        have hmain : (∀ e evs, loopIter cfg st env = .crashed e evs → sessionsIn evs ≤ 1) ∧
            (∀ o evs fin, loopIter cfg st env = .finished o evs fin → sessionsIn evs ≤ 1) ∧
            (∀ st2 evs, loopIter cfg st env = .next st2 evs →
              sessionsIn evs ≤ 1 ∧ st2.sessionCount = st.sessionCount + 1) := by
          cases hcp : countPassing (load_features st.file) with
          | error e =>
            have hli : loopIter cfg st env = .crashed e [] := by
              rw [loopIter, hcm]
              simp only [hmx, Bool.false_eq_true, if_false, hcp]
            refine ⟨?_, ?_, ?_⟩
            · intro e2 evs h
              rw [hli, Step.crashed.injEq] at h
              rw [← h.2, sessionsIn_nil]
              omega
            · intro o evs fin h
              rw [hli] at h
              exact absurd h (by simp)
            · intro st2 evs h
              rw [hli] at h
              exact absurd h (by simp)
          | ok prev =>
            have hsess : sessionsIn (sessEvs cfg st env) = 1 := by
              rw [sessEvs]
              have := sessionsIn_run_session_events (chosenSessionType cfg st)
                (promptFor (chosenSessionType cfg st)) env.now cfg.timeoutSecs env.outcome
              simp [sessionsIn, List.countP_cons, Event.isSession] at this ⊢
              exact this
            cases hvl : validate_feature_changes (load_features st.file)
                (load_features env.fileAfter) with
            | error e =>
              have hli : loopIter cfg st env = .crashed e (sessEvs cfg st env) := by
                rw [loopIter, hcm]
                simp only [hmx, Bool.false_eq_true, if_false, hcp, hvl, sessEvs,
                  chosenSessionType]
              refine ⟨?_, ?_, ?_⟩
              · intro e2 evs h
                rw [hli, Step.crashed.injEq] at h
                rw [← h.2, hsess]
              · intro o evs fin h
                rw [hli] at h
                exact absurd h (by simp)
              · intro st2 evs h
                rw [hli] at h
                exact absurd h (by simp)
            | ok p =>
              obtain ⟨isValid, verr⟩ := p
              rcases htrip : (if isValid then
                  (env.fileAfter, load_features env.fileAfter, ([] : List Event))
                else match load_features st.file with
                  | some fb => (save_features fb, some fb,
                      [Event.warnInvalidChange verr, Event.warnRestoring])
                  | none => (env.fileAfter, load_features env.fileAfter,
                      [Event.warnInvalidChange verr])) with ⟨file2, featAfter2, warnEvs⟩
              have hwarn : sessionsIn warnEvs = 0 := by
                have h0 := sessionsIn_triple isValid verr env.fileAfter
                  (load_features st.file)
                rw [htrip] at h0
                exact h0
              cases hbn : passingNames (load_features st.file) with
              | error e =>
                have hli : loopIter cfg st env =
                    .crashed e (sessEvs cfg st env ++ warnEvs) := by
                  rw [loopIter, hcm]
                  simp only [hmx, Bool.false_eq_true, if_false, hcp, hvl, htrip, hbn,
                    sessEvs, chosenSessionType]
                refine ⟨?_, ?_, ?_⟩
                · intro e2 evs h
                  rw [hli, Step.crashed.injEq] at h
                  rw [← h.2, sessionsIn_append, hsess, hwarn]
                · intro o evs fin h
                  rw [hli] at h
                  exact absurd h (by simp)
                · intro st2 evs h
                  rw [hli] at h
                  exact absurd h (by simp)
              | ok bns =>
                cases hnw : newlyCompleted featAfter2 bns with
                | error e =>
                  have hli : loopIter cfg st env =
                      .crashed e (sessEvs cfg st env ++ warnEvs) := by
                    rw [loopIter, hcm]
                    simp only [hmx, Bool.false_eq_true, if_false, hcp, hvl, htrip, hbn,
                      hnw, sessEvs, chosenSessionType]
                  refine ⟨?_, ?_, ?_⟩
                  · intro e2 evs h
                    rw [hli, Step.crashed.injEq] at h
                    rw [← h.2, sessionsIn_append, hsess, hwarn]
                  · intro o evs fin h
                    rw [hli] at h
                    exact absurd h (by simp)
                  · intro st2 evs h
                    rw [hli] at h
                    exact absurd h (by simp)
                | ok newly =>
                  have heq := loopIter_eq cfg st env prev isValid verr bns newly
                    file2 featAfter2 warnEvs hcm hmx hcp hvl htrip hbn hnw
                  have hevs : sessionsIn ((Event.ranSession (chosenSessionType cfg st)
                      (run_session (chosenSessionType cfg st)
                        (promptFor (chosenSessionType cfg st)) cfg.timeoutSecs env.now
                        env.outcome).logs ::
                      (run_session (chosenSessionType cfg st)
                        (promptFor (chosenSessionType cfg st)) cfg.timeoutSecs env.now
                        env.outcome).events) ++ warnEvs ++
                      [Event.sessionProgress file2 newly
                        (run_session (chosenSessionType cfg st)
                          (promptFor (chosenSessionType cfg st)) cfg.timeoutSecs env.now
                          env.outcome).durationTenths prev
                        (st.totalTenths + (run_session (chosenSessionType cfg st)
                          (promptFor (chosenSessionType cfg st)) cfg.timeoutSecs env.now
                          env.outcome).durationTenths)]) = 1 := by
                    rw [sessionsIn_append, sessionsIn_append]
                    have h1 : sessionsIn (Event.ranSession (chosenSessionType cfg st)
                        (run_session (chosenSessionType cfg st)
                          (promptFor (chosenSessionType cfg st)) cfg.timeoutSecs env.now
                          env.outcome).logs ::
                        (run_session (chosenSessionType cfg st)
                          (promptFor (chosenSessionType cfg st)) cfg.timeoutSecs env.now
                          env.outcome).events) = 1 := by
                      have := sessionsIn_run_session_events (chosenSessionType cfg st)
                        (promptFor (chosenSessionType cfg st)) env.now cfg.timeoutSecs
                        env.outcome
                      simp [sessionsIn, List.countP_cons, Event.isSession] at this ⊢
                      exact this
                    rw [h1, hwarn]
                    simp [sessionsIn, List.countP_cons, Event.isSession]
                  cases hwt : (wait_for_stop_signal 10 env.wait).1 with
                  | true =>
                    simp only [hwt, if_true] at heq
                    refine ⟨?_, ?_, ?_⟩
                    · intro e2 evs h
                      rw [heq] at h
                      exact absurd h (by simp)
                    · intro o evs fin h
                      rw [heq, Step.finished.injEq] at h
                      rw [← h.2.1, sessionsIn_append, hevs]
                      simp [sessionsIn, List.countP_cons, Event.isSession]
                    · intro st2 evs h
                      rw [heq] at h
                      exact absurd h (by simp)
                  | false =>
                    simp only [hwt, Bool.false_eq_true, if_false] at heq
                    refine ⟨?_, ?_, ?_⟩
                    · intro e2 evs h
                      rw [heq] at h
                      exact absurd h (by simp)
                    · intro o evs fin h
                      rw [heq] at h
                      exact absurd h (by simp)
                    · intro st2 evs h
                      rw [heq, Step.next.injEq] at h
                      constructor
                      · rw [← h.2, hevs]
                      · rw [← h.1]
        refine ⟨hmain.1, hmain.2.1, hmain.2.2, ?_⟩
        intro hcontra
        exact absurd hcontra (by simp)

theorem runLoop_next_trace (fuel : Nat) (cfg : Config) (st : LoopState)
    (envs : Nat → IterEnv) (st2 : LoopState) (evs : List Event)
    (h : loopIter cfg st (envs st.sessionCount) = .next st2 evs) :
    (runLoop (fuel + 1) cfg st envs).trace = evs ++ (runLoop fuel cfg st2 envs).trace := by
  rw [runLoop, h]
  cases hres : runLoop fuel cfg st2 envs <;> simp [hres, RunRes.trace]

/-- With a configured ceiling `N ≥ 1`, any run records at most
`N - startingCount` sessions. -/
theorem runLoop_sessions_le (N : Nat) (hN : 1 ≤ N) (cfg : Config)
    (hcfg : cfg.maxSessions = some N) :
    ∀ (fuel : Nat) (st : LoopState) (envs : Nat → IterEnv),
      sessionsIn (runLoop fuel cfg st envs).trace ≤ N - st.sessionCount := by
  intro fuel
  induction fuel with
  | zero =>
    intro st envs
    simp [runLoop, RunRes.trace, sessionsIn_nil]
  | succ n ih =>
    intro st envs
    obtain ⟨hcr, hfin, hnext, hmax⟩ := loopIter_bound cfg st (envs st.sessionCount)
    cases hli : loopIter cfg st (envs st.sessionCount) with
    | crashed e evs =>
      have htr : (runLoop (n + 1) cfg st envs).trace = evs := by
        rw [runLoop, hli, RunRes.trace]
      rw [htr]
      by_cases hmx : hitsMaxSessions cfg.maxSessions (st.sessionCount + 1) = true
      · rw [(hmax hmx).1 e evs hli]
        omega
      · have hlt : st.sessionCount < N := by
          rw [hcfg] at hmx
          simp [hitsMaxSessions] at hmx
          omega
        have := hcr e evs hli
        omega
    | finished o evs fin =>
      have htr : (runLoop (n + 1) cfg st envs).trace = evs := by
        rw [runLoop, hli, RunRes.trace]
      rw [htr]
      by_cases hmx : hitsMaxSessions cfg.maxSessions (st.sessionCount + 1) = true
      · rw [(hmax hmx).2.1 o evs fin hli]
        omega
      · have hlt : st.sessionCount < N := by
          rw [hcfg] at hmx
          simp [hitsMaxSessions] at hmx
          omega
        have := hfin o evs fin hli
        omega
    | next st2 evs =>
      obtain ⟨hone, hcount⟩ := hnext st2 evs hli
      have hlt : st.sessionCount < N := by
        by_cases hmx : hitsMaxSessions cfg.maxSessions (st.sessionCount + 1) = true
        · exact absurd hli ((hmax hmx).2.2 st2 evs)
        · rw [hcfg] at hmx
          simp [hitsMaxSessions] at hmx
          omega
      rw [runLoop_next_trace n cfg st envs st2 evs hli, sessionsIn_append]
      have hrec := ih st2 envs
      rw [hcount] at hrec
      omega

/-- Configuration with `max_sessions = 0`: the Python truthiness test
`if max_sessions and ...` never fires. -/
def zeroCfg : Config := { maxSessions := some 0, isAdoption := false, timeoutSecs := 1800 }

/-- Environment whose agent always returns and leaves the one-failing
checklist in place, with non-interactive stdin. -/
def unbEnv : IterEnv :=
  { outcome := .returns "out" "" 50, fileAfter := loopFile, now := "TS"
    wait := { isatty := false, keyAt := none } }

/-- Loop state of the `unbEnv` run after `k` sessions with accumulated
run time `t`. -/
def unbSt (k t : Nat) : LoopState :=
  { file := loopFile, sessionCount := k, totalTenths := t
    needsEnhancementInit := false }

theorem zero_step (k t : Nat) :
    ∃ evs, loopIter zeroCfg (unbSt k t) unbEnv = .next (unbSt (k + 1) (t + 50)) evs ∧
      sessionsIn evs = 1 := by
  have heq := loopIter_eq zeroCfg (unbSt k t) unbEnv 0 true .noErr [] []
    loopFile (load_features loopFile) [] rfl (by simp [hitsMaxSessions, zeroCfg])
    rfl rfl rfl rfl rfl
  simp only [show (wait_for_stop_signal 10 unbEnv.wait).1 = false from rfl,
    Bool.false_eq_true, if_false] at heq
  refine ⟨_, heq, ?_⟩
  simp [sessionsIn, List.countP_append, List.countP_cons, Event.isSession,
    run_session, unbEnv, zeroCfg]

theorem zero_run_sessions : ∀ (n k t : Nat),
    sessionsIn (runLoop n zeroCfg (unbSt k t) (fun _ => unbEnv)).trace = n := by
  intro n
  induction n with
  | zero => intro k t; simp [runLoop, RunRes.trace, sessionsIn_nil]
  | succ m ih =>
    intro k t
    obtain ⟨evs, hstep, hone⟩ := zero_step k t
    have hstep2 : loopIter zeroCfg (unbSt k t)
        ((fun _ => unbEnv) (unbSt k t).sessionCount) = .next (unbSt (k + 1) (t + 50)) evs :=
      hstep
    rw [runLoop_next_trace m zeroCfg (unbSt k t) (fun _ => unbEnv)
      (unbSt (k + 1) (t + 50)) evs hstep2, sessionsIn_append, hone, ih (k + 1) (t + 50)]
    omega

/-- **C9**: with a configured ceiling `max_sessions = N ≥ 1` the loop
executes at most `N` sessions, and an incomplete iteration starting at or
above the ceiling terminates at once with the max-sessions-reached
outcome; with `max_sessions = 0` the Python truthiness test disables the
ceiling and the loop can execute unboundedly many sessions (`0` behaves as
"no ceiling", not "zero sessions"). -/
theorem max_sessions_ceiling :
    (∀ (N : Nat), 1 ≤ N → ∀ (cfg : Config), cfg.maxSessions = some N →
      ∀ (fuel : Nat) (st : LoopState) (envs : Nat → IterEnv), st.sessionCount = 0 →
        sessionsIn (runLoop fuel cfg st envs).trace ≤ N) ∧
    (∀ (N : Nat), 1 ≤ N → ∀ (cfg : Config), cfg.maxSessions = some N →
      ∀ (st : LoopState) (env : IterEnv), N ≤ st.sessionCount →
        is_project_complete st.file = .ok false →
        loopIter cfg st env = .finished .maxSessionsReached [.maxSessionsMsg N]
          { st with sessionCount := st.sessionCount + 1 }) ∧
    (zeroCfg.maxSessions = some 0 ∧
      ∀ n : Nat, sessionsIn (runLoop n zeroCfg (unbSt 0 0) (fun _ => unbEnv)).trace = n) := by
  refine ⟨?_, ?_, rfl, fun n => zero_run_sessions n 0 0⟩
  · intro N hN cfg hcfg fuel st envs h0
    have h := runLoop_sessions_le N hN cfg hcfg fuel st envs
    rw [h0] at h
    simpa using h
  · intro N hN cfg hcfg st env hle hc
    have hmx : hitsMaxSessions (some N) (st.sessionCount + 1) = true := by
      simp only [hitsMaxSessions, Bool.and_eq_true, decide_eq_true_eq]
      omega
    rw [loopIter, hc]
    simp only [hcfg, hmx, if_true]
    rfl

/-- Configuration with a ceiling of two sessions. -/
def twoCfg : Config := { maxSessions := some 2, isAdoption := false, timeoutSecs := 1800 }

/-- Witness for C9: a ceiling of 2 bounds a 5-iteration run at 2 sessions;
an incomplete state at the ceiling terminates with max-sessions-reached;
and with `max_sessions = 0` a 3-iteration run executes 3 sessions. -/
theorem max_sessions_ceiling_witness :
    sessionsIn (runLoop 5 twoCfg (unbSt 0 0) (fun _ => unbEnv)).trace ≤ 2 ∧
    loopIter twoCfg (unbSt 2 100) unbEnv = .finished .maxSessionsReached
      [.maxSessionsMsg 2] { unbSt 2 100 with sessionCount := 3 } ∧
    sessionsIn (runLoop 3 zeroCfg (unbSt 0 0) (fun _ => unbEnv)).trace = 3 :=
  ⟨max_sessions_ceiling.1 2 (by decide) twoCfg rfl 5 (unbSt 0 0) (fun _ => unbEnv) rfl,
    max_sessions_ceiling.2.1 2 (by decide) twoCfg rfl (unbSt 2 100) unbEnv
      (by decide) rfl,
    max_sessions_ceiling.2.2.2 3⟩

/-! ## Session-kind accounting -/

theorem ranSession_not_in_run_session_events (t : String) (ls : List String)
    (tp p now : String) (ts : Nat) (ag : AgentOutcome) :
    Event.ranSession t ls ∉ (run_session tp p ts now ag).events := by
  cases ag <;> simp [run_session]

theorem ranSession_not_in_triple (t : String) (ls : List String) (isValid : Bool)
    (verr : VError) (fa : FileContent) (fb : Option Json) :
    Event.ranSession t ls ∉ (if isValid then (fa, load_features fa, ([] : List Event))
      else match fb with
        | some x => (save_features x, some x,
            [Event.warnInvalidChange verr, Event.warnRestoring])
        | none => (fa, load_features fa, [Event.warnInvalidChange verr])).2.2 := by
  cases isValid <;> cases fb <;> simp

/-- The step taken by one iteration only records sessions of the selected
kind, and a continuing iteration clears a pending enhancement flag and
otherwise preserves it. -/
theorem loopIter_kinds (cfg : Config) (st : LoopState) (env : IterEnv) :
    (∀ st2 evs, loopIter cfg st env = .next st2 evs →
      st2.needsEnhancementInit =
        (if st.needsEnhancementInit then false else st.needsEnhancementInit)) ∧
    (∀ e evs t ls, loopIter cfg st env = .crashed e evs →
      Event.ranSession t ls ∈ evs → t = chosenSessionType cfg st) ∧
    (∀ o evs fin t ls, loopIter cfg st env = .finished o evs fin →
      Event.ranSession t ls ∈ evs → t = chosenSessionType cfg st) ∧
    (∀ st2 evs t ls, loopIter cfg st env = .next st2 evs →
      Event.ranSession t ls ∈ evs → t = chosenSessionType cfg st) := by
  cases hcm : is_project_complete st.file with
  | error e =>
    have hli : loopIter cfg st env = .crashed e [] := by rw [loopIter, hcm]
    refine ⟨?_, ?_, ?_, ?_⟩
    · intro st2 evs h; rw [hli] at h; exact absurd h (by simp)
    · intro e2 evs t ls h hm
      rw [hli, Step.crashed.injEq] at h
      rw [← h.2] at hm
      exact absurd hm (by simp)
    · intro o evs fin t ls h _; rw [hli] at h; exact absurd h (by simp)
    · intro st2 evs t ls h _; rw [hli] at h; exact absurd h (by simp)
  | ok b =>
    cases b with
    | true =>
      have hli : loopIter cfg st env = .finished .complete [.completeMsg] st := by
        rw [loopIter, hcm]
      refine ⟨?_, ?_, ?_, ?_⟩
      · intro st2 evs h; rw [hli] at h; exact absurd h (by simp)
      · intro e2 evs t ls h _; rw [hli] at h; exact absurd h (by simp)
      · intro o evs fin t ls h hm
        rw [hli, Step.finished.injEq] at h
        rw [← h.2.1] at hm
        exact absurd hm (by simp)
      · intro st2 evs t ls h _; rw [hli] at h; exact absurd h (by simp)
    | false =>
      cases hmx : hitsMaxSessions cfg.maxSessions (st.sessionCount + 1) with
      | true =>
        have hli : loopIter cfg st env = .finished .maxSessionsReached
            [.maxSessionsMsg (cfg.maxSessions.getD 0)]
            { st with sessionCount := st.sessionCount + 1 } := by
          rw [loopIter, hcm]
          simp only [hmx, if_true]
        refine ⟨?_, ?_, ?_, ?_⟩
        · intro st2 evs h; rw [hli] at h; exact absurd h (by simp)
        · intro e2 evs t ls h _; rw [hli] at h; exact absurd h (by simp)
        · intro o evs fin t ls h hm
          rw [hli, Step.finished.injEq] at h
          rw [← h.2.1] at hm
          exact absurd hm (by simp)
        · intro st2 evs t ls h _; rw [hli] at h; exact absurd h (by simp)
      | false =>
        cases hcp : countPassing (load_features st.file) with
        | error e =>
          have hli : loopIter cfg st env = .crashed e [] := by
            rw [loopIter, hcm]
            simp only [hmx, Bool.false_eq_true, if_false, hcp]
          refine ⟨?_, ?_, ?_, ?_⟩
          · intro st2 evs h; rw [hli] at h; exact absurd h (by simp)
          · intro e2 evs t ls h hm
            rw [hli, Step.crashed.injEq] at h
            rw [← h.2] at hm
            exact absurd hm (by simp)
          · intro o evs fin t ls h _; rw [hli] at h; exact absurd h (by simp)
          · intro st2 evs t ls h _; rw [hli] at h; exact absurd h (by simp)
        | ok prev =>
          have hmemSess : ∀ t ls, Event.ranSession t ls ∈ sessEvs cfg st env →
              t = chosenSessionType cfg st := by
            intro t ls hm
            rw [sessEvs, List.mem_cons] at hm
            rcases hm with hm | hm
            · exact (Event.ranSession.inj hm).1
            · exact absurd hm (ranSession_not_in_run_session_events t ls _ _ _ _ _)
          cases hvl : validate_feature_changes (load_features st.file)
              (load_features env.fileAfter) with
          | error e =>
            have hli : loopIter cfg st env = .crashed e (sessEvs cfg st env) := by
              rw [loopIter, hcm]
              simp only [hmx, Bool.false_eq_true, if_false, hcp, hvl, sessEvs,
                chosenSessionType]
            refine ⟨?_, ?_, ?_, ?_⟩
            · intro st2 evs h; rw [hli] at h; exact absurd h (by simp)
            · intro e2 evs t ls h hm
              rw [hli, Step.crashed.injEq] at h
              rw [← h.2] at hm
              exact hmemSess t ls hm
            · intro o evs fin t ls h _; rw [hli] at h; exact absurd h (by simp)
            · intro st2 evs t ls h _; rw [hli] at h; exact absurd h (by simp)
          | ok p =>
            obtain ⟨isValid, verr⟩ := p
            rcases htrip : (if isValid then
                (env.fileAfter, load_features env.fileAfter, ([] : List Event))
              else match load_features st.file with
                | some fb => (save_features fb, some fb,
                    [Event.warnInvalidChange verr, Event.warnRestoring])
                | none => (env.fileAfter, load_features env.fileAfter,
                    [Event.warnInvalidChange verr])) with ⟨file2, featAfter2, warnEvs⟩
            have hmemWarn : ∀ t ls, Event.ranSession t ls ∉ warnEvs := by
              intro t ls hm
              have h0 := ranSession_not_in_triple t ls isValid verr env.fileAfter
                (load_features st.file)
              rw [htrip] at h0
              exact h0 hm
            cases hbn : passingNames (load_features st.file) with
            | error e =>
              have hli : loopIter cfg st env =
                  .crashed e (sessEvs cfg st env ++ warnEvs) := by
                rw [loopIter, hcm]
                simp only [hmx, Bool.false_eq_true, if_false, hcp, hvl, htrip, hbn,
                  sessEvs, chosenSessionType]
              refine ⟨?_, ?_, ?_, ?_⟩
              · intro st2 evs h; rw [hli] at h; exact absurd h (by simp)
              · intro e2 evs t ls h hm
                rw [hli, Step.crashed.injEq] at h
                rw [← h.2, List.mem_append] at hm
                rcases hm with hm | hm
                · exact hmemSess t ls hm
                · exact absurd hm (hmemWarn t ls)
              · intro o evs fin t ls h _; rw [hli] at h; exact absurd h (by simp)
              · intro st2 evs t ls h _; rw [hli] at h; exact absurd h (by simp)
            | ok bns =>
              cases hnw : newlyCompleted featAfter2 bns with
              | error e =>
                have hli : loopIter cfg st env =
                    .crashed e (sessEvs cfg st env ++ warnEvs) := by
                  rw [loopIter, hcm]
                  simp only [hmx, Bool.false_eq_true, if_false, hcp, hvl, htrip, hbn,
                    hnw, sessEvs, chosenSessionType]
                refine ⟨?_, ?_, ?_, ?_⟩
                · intro st2 evs h; rw [hli] at h; exact absurd h (by simp)
                · intro e2 evs t ls h hm
                  rw [hli, Step.crashed.injEq] at h
                  rw [← h.2, List.mem_append] at hm
                  rcases hm with hm | hm
                  · exact hmemSess t ls hm
                  · exact absurd hm (hmemWarn t ls)
                · intro o evs fin t ls h _; rw [hli] at h; exact absurd h (by simp)
                · intro st2 evs t ls h _; rw [hli] at h; exact absurd h (by simp)
              | ok newly =>
                have heq := loopIter_eq cfg st env prev isValid verr bns newly
                  file2 featAfter2 warnEvs hcm hmx hcp hvl htrip hbn hnw
                have hmemBig : ∀ t ls, Event.ranSession t ls ∈
                    (Event.ranSession (chosenSessionType cfg st)
                      (run_session (chosenSessionType cfg st)
                        (promptFor (chosenSessionType cfg st)) cfg.timeoutSecs env.now
                        env.outcome).logs ::
                      (run_session (chosenSessionType cfg st)
                        (promptFor (chosenSessionType cfg st)) cfg.timeoutSecs env.now
                        env.outcome).events) ++ warnEvs ++
                      [Event.sessionProgress file2 newly
                        (run_session (chosenSessionType cfg st)
                          (promptFor (chosenSessionType cfg st)) cfg.timeoutSecs env.now
                          env.outcome).durationTenths prev
                        (st.totalTenths + (run_session (chosenSessionType cfg st)
                          (promptFor (chosenSessionType cfg st)) cfg.timeoutSecs env.now
                          env.outcome).durationTenths)] →
                    t = chosenSessionType cfg st := by
                  intro t ls hm
                  rw [List.mem_append, List.mem_append] at hm
                  rcases hm with (hm | hm) | hm
                  · exact hmemSess t ls hm
                  · exact absurd hm (hmemWarn t ls)
                  · exact absurd hm (by simp)
                cases hwt : (wait_for_stop_signal 10 env.wait).1 with
                | true =>
                  simp only [hwt, if_true] at heq
                  refine ⟨?_, ?_, ?_, ?_⟩
                  · intro st2 evs h; rw [heq] at h; exact absurd h (by simp)
                  · intro e2 evs t ls h _; rw [heq] at h; exact absurd h (by simp)
                  · intro o evs fin t ls h hm
                    rw [heq, Step.finished.injEq] at h
                    rw [← h.2.1, List.mem_append] at hm
                    rcases hm with hm | hm
                    · exact hmemBig t ls hm
                    · exact absurd hm (by simp)
                  · intro st2 evs t ls h _; rw [heq] at h; exact absurd h (by simp)
                | false =>
                  simp only [hwt, Bool.false_eq_true, if_false] at heq
                  refine ⟨?_, ?_, ?_, ?_⟩
                  · intro st2 evs h
                    rw [heq, Step.next.injEq] at h
                    rw [← h.1]
                  · intro e2 evs t ls h _; rw [heq] at h; exact absurd h (by simp)
                  · intro o evs fin t ls h _; rw [heq] at h; exact absurd h (by simp)
                  · intro st2 evs t ls h hm
                    rw [heq, Step.next.injEq] at h
                    rw [← h.2] at hm
                    exact hmemBig t ls hm

theorem sessionsOfIn_le_sessionsIn (t : String) (l : List Event) :
    sessionsOfIn t l ≤ sessionsIn l := by
  rw [sessionsOfIn, sessionsIn]
  apply List.countP_mono_left
  intro e he hp
  cases e <;> simp_all [Event.isSessionOf, Event.isSession]

theorem sessionsOfIn_append (t : String) (a b : List Event) :
    sessionsOfIn t (a ++ b) = sessionsOfIn t a + sessionsOfIn t b := by
  simp [sessionsOfIn, List.countP_append]

/-- When no enhancement initializer is pending, the selected kind is never
`enhancement_init`. -/
theorem chosen_ne_enh (cfg : Config) (st : LoopState)
    (h : st.needsEnhancementInit = false) :
    chosenSessionType cfg st ≠ "enhancement_init" := by
  rw [chosenSessionType, h]
  simp only [Bool.false_eq_true, if_false]
  by_cases h1 : (!fileExists st.file) = true
  · rw [if_pos h1]
    by_cases h2 : cfg.isAdoption = true
    · rw [if_pos h2]; decide
    · rw [if_neg h2]; decide
  · rw [if_neg h1]; decide

theorem sessionsOfIn_eq_zero_of_kinds (t : String) (evs : List Event)
    (h : ∀ t2 ls, Event.ranSession t2 ls ∈ evs → t2 ≠ t) :
    sessionsOfIn t evs = 0 := by
  rw [sessionsOfIn, List.countP_eq_zero]
  intro e he
  cases e with
  | ranSession t2 ls =>
    simp only [Event.isSessionOf, decide_eq_true_eq]
    exact h t2 ls he
  | printOutput a b => simp [Event.isSessionOf]
  | printTimeoutMsg a b => simp [Event.isSessionOf]
  | printErrorMsg a => simp [Event.isSessionOf]
  | warnInvalidChange a => simp [Event.isSessionOf]
  | warnRestoring => simp [Event.isSessionOf]
  | sessionProgress a b c d f => simp [Event.isSessionOf]
  | maxSessionsMsg a => simp [Event.isSessionOf]
  | userStoppedMsg => simp [Event.isSessionOf]
  | completeMsg => simp [Event.isSessionOf]

/-- Across a whole run, the enhancement initializer fires at most once:
never when the flag is down, and at most one session when it is up. -/
theorem runLoop_enh_le (cfg : Config) : ∀ (fuel : Nat) (st : LoopState)
    (envs : Nat → IterEnv),
    sessionsOfIn "enhancement_init" (runLoop fuel cfg st envs).trace ≤
      (if st.needsEnhancementInit then 1 else 0) := by
  intro fuel
  induction fuel with
  | zero =>
    intro st envs
    simp [runLoop, RunRes.trace, sessionsOfIn]
  | succ n ih =>
    intro st envs
    obtain ⟨hflag, hkc, hkf, hkn⟩ := loopIter_kinds cfg st (envs st.sessionCount)
    obtain ⟨hbc, hbf, hbn, _⟩ := loopIter_bound cfg st (envs st.sessionCount)
    have hone : ∀ evs, sessionsIn evs ≤ 1 →
        (∀ t2 ls, Event.ranSession t2 ls ∈ evs → t2 = chosenSessionType cfg st) →
        sessionsOfIn "enhancement_init" evs ≤
          (if st.needsEnhancementInit then 1 else 0) := by
      intro evs hle hkind
      cases hfl : st.needsEnhancementInit with
      | true =>
        simp only [if_true]
        exact Nat.le_trans (sessionsOfIn_le_sessionsIn _ evs) hle
      | false =>
        simp only [Bool.false_eq_true, if_false]
        rw [sessionsOfIn_eq_zero_of_kinds]
        intro t2 ls hm
        rw [hkind t2 ls hm]
        exact chosen_ne_enh cfg st hfl
    cases hli : loopIter cfg st (envs st.sessionCount) with
    | crashed e evs =>
      have htr : (runLoop (n + 1) cfg st envs).trace = evs := by
        rw [runLoop, hli, RunRes.trace]
      rw [htr]
      exact hone evs (hbc e evs hli) (fun t2 ls hm => hkc e evs t2 ls hli hm)
    | finished o evs fin =>
      have htr : (runLoop (n + 1) cfg st envs).trace = evs := by
        rw [runLoop, hli, RunRes.trace]
      rw [htr]
      exact hone evs (hbf o evs fin hli) (fun t2 ls hm => hkf o evs fin t2 ls hli hm)
    | next st2 evs =>
      rw [runLoop_next_trace n cfg st envs st2 evs hli, sessionsOfIn_append]
      have hev := hone evs (hbn st2 evs hli).1 (fun t2 ls hm => hkn st2 evs t2 ls hli hm)
      have hrec := ih st2 envs
      rw [hflag st2 evs hli] at hrec
      cases hfl : st.needsEnhancementInit with
      | true =>
        rw [hfl] at hev hrec
        simp only [if_true] at hev ⊢
        simp only [if_true, Bool.false_eq_true, if_false] at hrec
        omega
      | false =>
        rw [hfl] at hev hrec
        simp only [Bool.false_eq_true, if_false] at hev hrec ⊢
        omega

/-- Initial state of a fresh run on a project with no checklist. -/
def initSt : LoopState :=
  { file := .absent, sessionCount := 0, totalTenths := 0, needsEnhancementInit := false }

/-- Environment of a session that returns normally but fails to create
the checklist file. -/
def initEnvFail : IterEnv :=
  { outcome := .returns "out" "" 50, fileAfter := .absent, now := "TS"
    wait := { isatty := false, keyAt := none } }

/-- **C4 counterexample**: when the initializer session fails to create
the checklist file, the next iteration selects the initializer again — two
iterations of one run execute two `initializer` sessions, so the
init-kind session does not fire at most once per process lifetime. -/
theorem initializer_repeats_counterexample :
    initEnvFail.fileAfter = .absent ∧
    sessionsOfIn "initializer"
      (runLoop 2 loopCfg initSt (fun _ => initEnvFail)).trace = 2 := by
  constructor
  · rfl
  · decide

/-- **C4 amended**: the enhancement initializer fires at most once per run
of the loop controller; the init/adoption initializer is selected in every
iteration at whose start the checklist file does not exist (and no
enhancement initializer is pending), so a session that fails to create the
file is followed by another initializer; once the file exists and no
enhancement initializer is pending, the iteration selects coding; and
every session an iteration executes is of the kind selected at its
start. -/
theorem initializer_selection_amended :
    (∀ (fuel : Nat) (cfg : Config) (st : LoopState) (envs : Nat → IterEnv),
      sessionsOfIn "enhancement_init" (runLoop fuel cfg st envs).trace ≤
        (if st.needsEnhancementInit then 1 else 0)) ∧
    (∀ (cfg : Config) (st : LoopState), st.needsEnhancementInit = true →
      chosenSessionType cfg st = "enhancement_init") ∧
    (∀ (cfg : Config) (st : LoopState), st.needsEnhancementInit = false →
      fileExists st.file = false →
      chosenSessionType cfg st = (if cfg.isAdoption then "adoption_init" else "initializer")) ∧
    (∀ (cfg : Config) (st : LoopState), st.needsEnhancementInit = false →
      fileExists st.file = true → chosenSessionType cfg st = "coding") ∧
    (∀ (cfg : Config) (st : LoopState) (env : IterEnv) (st2 : LoopState)
      (evs : List Event) (t : String) (ls : List String),
      loopIter cfg st env = .next st2 evs → Event.ranSession t ls ∈ evs →
      t = chosenSessionType cfg st) ∧
    (∀ (cfg : Config) (st : LoopState) (env : IterEnv) (o : Outcome)
      (evs : List Event) (fin : LoopState) (t : String) (ls : List String),
      loopIter cfg st env = .finished o evs fin → Event.ranSession t ls ∈ evs →
      t = chosenSessionType cfg st) ∧
    (∀ (cfg : Config) (st : LoopState) (env : IterEnv) (e : PyErr)
      (evs : List Event) (t : String) (ls : List String),
      loopIter cfg st env = .crashed e evs → Event.ranSession t ls ∈ evs →
      t = chosenSessionType cfg st) := by
  refine ⟨?_, ?_, ?_, ?_, ?_, ?_, ?_⟩
  · exact fun fuel cfg st envs => runLoop_enh_le cfg fuel st envs
  · intro cfg st h
    simp [chosenSessionType, h]
  · intro cfg st h hf
    simp [chosenSessionType, h, hf]
  · intro cfg st h hf
    simp [chosenSessionType, h, hf]
  · exact fun cfg st env st2 evs t ls h hm =>
      (loopIter_kinds cfg st env).2.2.2 st2 evs t ls h hm
  · exact fun cfg st env o evs fin t ls h hm =>
      (loopIter_kinds cfg st env).2.2.1 o evs fin t ls h hm
  · exact fun cfg st env e evs t ls h hm =>
      (loopIter_kinds cfg st env).2.1 e evs t ls h hm

/-- Witness for C4's amended claim at concrete states. -/
theorem initializer_selection_amended_witness :
    sessionsOfIn "enhancement_init"
      (runLoop 3 loopCfg
        { file := loopFile, sessionCount := 0, totalTenths := 0
          needsEnhancementInit := true } (fun _ => initEnvFail)).trace ≤ 1 ∧
    chosenSessionType loopCfg initSt = "initializer" ∧
    chosenSessionType loopCfg loopSt = "coding" :=
  ⟨initializer_selection_amended.1 3 loopCfg
      { file := loopFile, sessionCount := 0, totalTenths := 0
        needsEnhancementInit := true } (fun _ => initEnvFail),
    initializer_selection_amended.2.2.1 loopCfg initSt rfl rfl,
    initializer_selection_amended.2.2.2.1 loopCfg loopSt rfl rfl⟩

/-! ## Restore on integrity violation -/

/-- **C3**: in any iteration whose diff verdict is invalid while the
before-snapshot is present, the controller warns (both the violation and
the restore), writes the before-snapshot back to the store — so the
post-restore checklist parses back to the pre-session snapshot — and
reports progress against the restored snapshot; the violation is never
fatal: the iteration either continues to the next one or stops only
because the operator pressed a key during the wait. -/
theorem integrity_violation_restores (cfg : Config) (st : LoopState) (env : IterEnv)
    (fb : Json) (verr : VError) (prev : Nat) (bns newly : List Json)
    (hc : is_project_complete st.file = .ok false)
    (hm : hitsMaxSessions cfg.maxSessions (st.sessionCount + 1) = false)
    (hfb : load_features st.file = some fb)
    (hp : countPassing (load_features st.file) = .ok prev)
    (hv : validate_feature_changes (load_features st.file)
      (load_features env.fileAfter) = .ok (false, verr))
    (hbn : passingNames (load_features st.file) = .ok bns)
    (hnw : newlyCompleted (some fb) bns = .ok newly) :
    ∃ evs st2,
      (loopIter cfg st env = .next st2 evs ∨
        loopIter cfg st env = .finished .userStopped evs st2) ∧
      Event.warnInvalidChange verr ∈ evs ∧
      Event.warnRestoring ∈ evs ∧
      st2.file = save_features fb ∧
      load_features st2.file = some fb ∧
      (∃ d, Event.sessionProgress (save_features fb) newly d prev
        (st.totalTenths + d) ∈ evs) := by
  have hpost : (if false then (env.fileAfter, load_features env.fileAfter, ([] : List Event))
      else match load_features st.file with
        | some fb2 => (save_features fb2, some fb2,
            [Event.warnInvalidChange verr, Event.warnRestoring])
        | none => (env.fileAfter, load_features env.fileAfter,
            [Event.warnInvalidChange verr]))
      = (save_features fb, some fb,
          [Event.warnInvalidChange verr, Event.warnRestoring]) := by
    simp [hfb]
  have heq := loopIter_eq cfg st env prev false verr bns newly (save_features fb)
    (some fb) [Event.warnInvalidChange verr, Event.warnRestoring]
    hc hm hp hv hpost hbn hnw
  cases hwt : (wait_for_stop_signal 10 env.wait).1 with
  | true =>
    simp only [hwt, if_true] at heq
    exact ⟨_, _, Or.inr heq, by simp, by simp, rfl, rfl,
      ⟨(run_session (chosenSessionType cfg st) (promptFor (chosenSessionType cfg st))
          cfg.timeoutSecs env.now env.outcome).durationTenths, by simp⟩⟩
  | false =>
    simp only [hwt, Bool.false_eq_true, if_false] at heq
    exact ⟨_, _, Or.inl heq, by simp, by simp, rfl, rfl,
      ⟨(run_session (chosenSessionType cfg st) (promptFor (chosenSessionType cfg st))
          cfg.timeoutSecs env.now env.outcome).durationTenths, by simp⟩⟩

/-- Scenario C fixtures: a three-record checklist and the agent's mutation
that drops the middle record. -/
def threeRecsJ : Json := .arr [demoRec "a" "d1" true, demoRec "b" "d2" false,
  demoRec "c" "d3" false]

/-- The tampered checklist with record `b` removed. -/
def twoRecsJ : Json := .arr [demoRec "a" "d1" true, demoRec "c" "d3" false]

/-- Pre-session state holding the three-record checklist. -/
def restoreSt : LoopState :=
  { file := .json threeRecsJ, sessionCount := 0, totalTenths := 0
    needsEnhancementInit := false }

/-- Environment in which the session removes record `b`. -/
def restoreEnv : IterEnv :=
  { outcome := .returns "out" "" 50, fileAfter := .json twoRecsJ, now := "TS"
    wait := { isatty := false, keyAt := none } }

/-- Witness for C3 at Scenario C: the restored state holds the pre-session
three-record checklist. -/
theorem integrity_violation_restores_witness :
    ∃ evs st2,
      (loopIter loopCfg restoreSt restoreEnv = .next st2 evs ∨
        loopIter loopCfg restoreSt restoreEnv = .finished .userStopped evs st2) ∧
      Event.warnInvalidChange (.removed [.str "b"]) ∈ evs ∧
      Event.warnRestoring ∈ evs ∧
      st2.file = save_features threeRecsJ ∧
      load_features st2.file = some threeRecsJ ∧
      (∃ d, Event.sessionProgress (save_features threeRecsJ) [] d 1
        (restoreSt.totalTenths + d) ∈ evs) :=
  integrity_violation_restores loopCfg restoreSt restoreEnv threeRecsJ
    (.removed [.str "b"]) 1 [.str "a"] [] (by decide) (by decide) (by decide)
    (by decide) (by decide) (by decide) (by decide)

end AutonomousClaude
